import Mathlib

/-!
# go-request: a shallow embedding of `request/request.go`

The development embeds the fluent request builder of `request/request.go`:
the reflective value flattener `conv`, the chainable configuration methods
(`Debug`, `Timeout`, `Header`, `Param`, `Stream`, `Json`, `Form`, `Multipart`)
and the terminal operations `Sync` and `Async`.

Conventions of the embedding.

* A Go `string` and a Go `[]byte` are both finite byte sequences and the program
  converts freely between them; both are represented by `String`, and `len` is
  `String.utf8ByteSize`.
* A Go function that returns `error` and may also crash returns a `Status`
  (`ok`, `error msg`, `crash msg`); a method that returns the receiver returns
  `Run httpClient` (`done hc` or `crash msg`).
* The sink of `conv` (the Go interface `param`, whose only method is `Add`) is
  an arbitrary state type together with its `Add` function.
* Library code the repository calls but does not contain (`fmt.Sprintf` on the
  URL template, `net/url.Parse`, `encoding/json.Marshal`, the
  `mime/multipart` writer, `http.NewRequest`, `http.Client.Do`) is a field of
  the environment `Env`; small library functions whose result the claims
  depend on (`strconv.Itoa`, `url.QueryEscape`, `url.Values.Encode`,
  `http.Header.Add`) are written out.
-/

namespace Request

/-! ## Constants of the source -/

def methodGet : String := "GET"
def methodPost : String := "POST"
def methodPut : String := "PUT"
def methodDelete : String := "DELETE"

def contentLength : String := "Content-Length"
def contentType : String := "Content-Type"
def contentTypeStream : String := "application/octet-stream"
def contentTypeJson : String := "application/json"
def contentTypeForm : String := "application/x-www-form-urlencoded"

/-- Message of the error `conv` returns when its counter is exhausted. -/
def errDepth : String := "传入的数据结构过于复杂，请简化数据结构"
/-- Message of the error `conv` returns for a string under the empty key. -/
def errString : String := "不支持传入string类型"
/-- Message of the error `conv` returns for a `[]byte` under the empty key. -/
def errBytes : String := "不支持传入[]byte类型"
/-- Message of the error `conv` returns for a slice or array under the empty key. -/
def errSeq : String := "不支持传入slice或者array类型"
/-- Message of the error `conv` returns for a map whose key kind is not string. -/
def errMapKey : String := "仅支持传入的map类型的key值为string类型"

/-- Crash of a nil dereference: `typeOf.Kind()` when `reflect.TypeOf(value)` is nil
(nil interface), or a field access through a nil `hc.url`. -/
def panicNilDeref : String :=
  "runtime error: invalid memory address or nil pointer dereference"
/-- Crash of the type assertion `value.(string)` on a named string type. -/
def panicAssertString : String := "interface conversion: interface \x7b\x7d is not string"
/-- Crash of the type assertion `value.([]byte)` on a named byte-slice type. -/
def panicAssertBytes : String := "interface conversion: interface \x7b\x7d is not []uint8"
/-- Crash of `valueOf.Elem().Interface()` on a nil pointer. -/
def panicZeroValue : String := "reflect: call of reflect.Value.Interface on zero Value"
/-- Crash of `valueOf.Field(i).Interface()` on an unexported field. -/
def panicUnexported : String :=
  "reflect.Value.Interface: cannot return value obtained from unexported field or method"

/-! ## Outcomes -/

/-- Outcome of Go code that returns an `error`: nil, a non-nil error with its
message, or a run-time panic. -/
inductive Status where
  | ok
  | error (msg : String)
  | crash (msg : String)
  deriving DecidableEq, Repr

/-- Outcome of a chainable method: the receiver after the call, or a panic. -/
inductive Run (α : Type) where
  | done (a : α)
  | crash (msg : String)
  deriving DecidableEq, Repr

/-- Sequencing of chainable calls: a panic ends the chain. -/
def Run.bind {α β : Type} : Run α → (α → Run β) → Run β
  | .done a, f => f a
  | .crash m, _ => .crash m

/-! ## Go values as seen by `reflect` -/

/-- What `conv` reads of a struct field: `field.Name`, `field.Tag.Get("json")`
and whether the field is exported (`Interface()` panics on an unexported one). -/
structure Field where
  name : String
  jsonTag : String
  exported : Bool
  deriving DecidableEq, Repr

/-- Key type of a map: exactly `string`, a named type of kind `String` (the
assertion `k.Interface().(string)` panics on it), or any other kind. -/
inductive KeyKind where
  | string
  | namedString
  | other
  deriving DecidableEq, Repr

/-- A dynamic Go value (`interface{}`), by the cases `conv` distinguishes.

* `nil`: the nil interface (`reflect.TypeOf` returns nil);
* `str`: a value of type `string`; `namedStr`: a value of a named type of kind `String`;
* `bytes`: a value of type `[]byte`; `namedBytes`: a slice of kind-`Uint8` elements of
  any other type;
* `seq`: any other slice or array, with its elements in index order;
* `map`: a map, with its key kind and its entries in the order `MapKeys` lists them
  (for a key kind other than string the keys are never read);
* `struct`: a struct, with its fields in declared order;
* `nilPtr`: a nil pointer of some pointer type; `ptr`: a non-nil pointer and its target;
* `other`: a value of any other kind (numbers, booleans, ...), given by its
  `fmt.Sprintf("%v", value)` rendering. -/
inductive GoValue where
  | nil
  | str (s : String)
  | namedStr (s : String)
  | bytes (b : String)
  | namedBytes (b : String)
  | seq (xs : List GoValue)
  | map (keys : KeyKind) (entries : List (String × GoValue))
  | struct (fields : List (Field × GoValue))
  | nilPtr
  | ptr (target : GoValue)
  | other (repr : String)

/-! ## The flattener `conv` -/

/-- A `for` loop whose body may return early: runs `f` on the elements in order,
threading the sink, and stops at the first element whose status is not `ok`. -/
def forEach {σ α : Type} (f : σ → α → σ × Status) : σ → List α → σ × Status
  | s, [] => (s, .ok)
  | s, x :: xs =>
    match f s x with
    | (s1, .ok) => forEach f s1 xs
    | r => r

/-- Name under which a struct field is flattened: the `json` tag up to its first
comma (`strings.Split(k, ",")[0]`) when the tag is non-empty, else the field name. -/
def fieldKey (f : Field) : String :=
  if f.jsonTag = "" then f.name
  else String.mk (f.jsonTag.toList.takeWhile (fun c => c != ','))

/-- Prefix for the children of a map or struct: `key + "."` unless `key` is empty. -/
def dotJoin (key : String) : String :=
  if key = "" then key else key ++ "."

/-- Key of element `i` of a slice or array: `key+"["+strconv.Itoa(i)+"]"`. -/
def indexKey (key : String) (i : Nat) : String :=
  key ++ "[" ++ toString i ++ "]"

/-- The method `conv(param, key, value, count)`; `add` is `param.Add` and the
first component of the result is the sink after the call. -/
def conv {σ : Type} (add : σ → String → String → σ) :
    σ → String → GoValue → Nat → σ × Status
  | s, _, _, 0 => (s, .error errDepth)
  | s, key, value, count + 1 =>
    match value with
    | .nil => (s, .crash panicNilDeref)
    | .str x =>
      if key = "" then (s, .error errString) else (add s key x, .ok)
    | .namedStr _ =>
      if key = "" then (s, .error errString) else (s, .crash panicAssertString)
    | .bytes b =>
      if key = "" then (s, .error errBytes) else (add s key b, .ok)
    | .namedBytes _ =>
      if key = "" then (s, .error errBytes) else (s, .crash panicAssertBytes)
    | .seq xs =>
      if key = "" then (s, .error errSeq)
      else forEach (fun s1 (p : Nat × GoValue) => conv add s1 (indexKey key p.1) p.2 count)
        s xs.enum
    | .map .other _ => (s, .error errMapKey)
    | .map .namedString es =>
      forEach (fun s1 (_ : String × GoValue) => (s1, .crash panicAssertString)) s es
    | .map .string es =>
      forEach (fun s1 (e : String × GoValue) => conv add s1 (dotJoin key ++ e.1) e.2 count)
        s es
    | .struct fs =>
      forEach (fun s1 (e : Field × GoValue) =>
          if e.1.exported then conv add s1 (dotJoin key ++ fieldKey e.1) e.2 count
          else (s1, .crash panicUnexported))
        s fs
    | .nilPtr => (s, .crash panicZeroValue)
    | .ptr target => conv add s key target count
    | .other r => (add s key r, .ok)

/-- The sink that records every `Add` in call order. -/
abbrev PairLog := List (String × String)

/-- `Add` of the recording sink. -/
def PairLog.add (l : PairLog) (k v : String) : PairLog := l ++ [(k, v)]

/-- The pairs `conv` emits on `value` and its status, from an empty record. -/
def flatten (key : String) (value : GoValue) (count : Nat) : PairLog × Status :=
  conv PairLog.add [] key value count

/-! ## String-keyed multimaps: `http.Header` and `url.Values` -/

/-- A Go `map[string][]string`: each key once, with its values in insertion order. -/
abbrev Multimap := List (String × List String)

/-- The values stored under `k` (`m[k]`, nil when the key is absent). -/
def Multimap.get : Multimap → String → List String
  | [], _ => []
  | (k1, vs) :: rest, k => if k1 = k then vs else Multimap.get rest k

/-- The update `m[k] = append(m[k], v)`. -/
def Multimap.append : Multimap → String → String → Multimap
  | [], k, v => [(k, [v])]
  | (k1, vs) :: rest, k, v =>
    if k1 = k then (k1, vs ++ [v]) :: rest else (k1, vs) :: Multimap.append rest k v

/-- The keys of the map. -/
def Multimap.keys (m : Multimap) : List String := m.map Prod.fst

/-- The bytes `net/textproto` accepts in a header field name (RFC 7230 token
characters). -/
def validHeaderFieldByte (c : Char) : Bool :=
  c.isAlphanum || "!#$%&*+-.^_|~".toList.contains c || c.toNat = 39 || c.toNat = 96

/-- Inner loop of `textproto.canonicalMIMEHeaderKey`: upper case for the first
letter and for every letter after a dash, lower case elsewhere. -/
def canonLoop : Bool → List Char → List Char
  | _, [] => []
  | upper, c :: cs =>
    let c1 := if upper && c.isLower then c.toUpper
      else if !upper && c.isUpper then c.toLower else c
    c1 :: canonLoop (c1 = '-') cs

/-- The function `textproto.CanonicalMIMEHeaderKey`: a key made only of valid
header field bytes is put in canonical case, any other key is returned unchanged. -/
def canonicalMIMEHeaderKey (s : String) : String :=
  if s.toList.all validHeaderFieldByte then String.mk (canonLoop true s.toList) else s

/-- The method `http.Header.Add`: append under the canonical form of the key. -/
def Header.add (h : Multimap) (key value : String) : Multimap :=
  Multimap.append h (canonicalMIMEHeaderKey key) value

/-- The method `url.Values.Add`: append under the key as given. -/
def Values.add (v : Multimap) (key value : String) : Multimap :=
  Multimap.append v key value

/-! ## `url.QueryEscape` and `url.Values.Encode` -/

/-- One upper-case hexadecimal digit. -/
def hexDigit (n : Nat) : Char :=
  if n < 10 then Char.ofNat (48 + n) else Char.ofNat (55 + n)

/-- The escape `%XX` of one byte. -/
def escapeByte (b : UInt8) : List Char :=
  ['%', hexDigit (b.toNat / 16), hexDigit (b.toNat % 16)]

/-- The bytes `url.QueryEscape` leaves as they are. -/
def isUnreserved (c : Char) : Bool :=
  c.isAlphanum || c = '-' || c = '_' || c = '.' || c = '~'

/-- Escape of one character: kept, `+` for a space, else `%XX` for each of its
UTF-8 bytes. -/
def escapeChar (c : Char) : List Char :=
  if isUnreserved c then [c]
  else if c = ' ' then ['+']
  else (String.utf8EncodeChar c).flatMap escapeByte

/-- The function `url.QueryEscape`. -/
def QueryEscape (s : String) : String :=
  String.mk (s.toList.flatMap escapeChar)

/-- Go's order on strings (byte-wise lexicographic; on UTF-8 text this is the
lexicographic order of the code points). -/
def keyLE (a b : String) : Prop :=
  a.toList.map Char.toNat ≤ b.toList.map Char.toNat

instance : DecidableRel keyLE := fun a b =>
  inferInstanceAs (Decidable (a.toList.map Char.toNat ≤ b.toList.map Char.toNat))

/-- One `key=value` item of an encoded query. -/
def encodePair (p : String × String) : String :=
  QueryEscape p.1 ++ "=" ++ QueryEscape p.2

/-- The pairs in the order `url.Values.Encode` writes them: keys ascending, the
values of one key in insertion order. -/
def Values.sortedPairs (v : Multimap) : List (String × String) :=
  (List.insertionSort keyLE (Multimap.keys v)).flatMap
    (fun k => (Multimap.get v k).map (fun x => (k, x)))

/-- The method `url.Values.Encode`. -/
def Values.Encode (v : Multimap) : String :=
  String.intercalate "&" ((Values.sortedPairs v).map encodePair)

/-! ## Request state and environment -/

/-- The parts of a parsed `net/url.URL` the builder keeps; `Param` writes `rawQuery`. -/
structure URL where
  scheme : String
  host : String
  path : String
  rawQuery : String
  fragment : String
  deriving DecidableEq, Repr

/-- The type `File`. -/
structure File where
  Filename : String
  Fieldname : String
  Data : String
  deriving DecidableEq, Repr

/-- The type `Multipart`; `Form` lists the entries of the map in the order the
`range` loop visits them. -/
structure MultipartData where
  Files : List File
  Form : List (String × String)
  deriving DecidableEq, Repr

/-- The type `httpClient`; `url` and `err` are `none` for Go's nil, `timeout` is in
nanoseconds. -/
structure httpClient where
  url : Option URL
  method : String
  header : Multimap
  body : String
  err : Option String
  timeout : Nat
  recursionCount : Nat
  isDebug : Bool
  deriving DecidableEq, Repr

/-- The request handed to the network: what `http.NewRequest` and
`req.Header = hc.header` put together. -/
structure HttpRequest where
  method : String
  url : String
  header : Multimap
  body : String
  deriving DecidableEq, Repr

/-- What the program reads of an `http.Response`: `StatusCode`, `Status` and the
result of `io.ReadAll(resp.Body)`. -/
structure Response where
  statusCode : Nat
  status : String
  readAll : Except String String

/-- The library calls the repository makes, as functions of their arguments.

* `sprintf`, `parse`: `fmt.Sprintf(url, args...)` and `net/url.Parse`;
* `urlString`: `(*url.URL).String`;
* `marshal`: `encoding/json.Marshal`;
* `writeField`, `createFormFile`, `writeData`, `closeWriter`: the operations of the
  `mime/multipart` writer on the body buffer, each giving the buffer after the
  call and its error; `formDataContentType`: the writer's content type, which
  carries its boundary;
* `newRequestErr`: the error of `http.NewRequest(method, url, body)`;
* `send`: `client.Do(req)` under the given timeout. -/
structure Env where
  sprintf : String → List GoValue → String
  parse : String → Except String URL
  urlString : URL → String
  marshal : GoValue → Except String String
  writeField : String → String → String → String × Option String
  createFormFile : String → String → String → String × Option String
  writeData : String → String → String × Option String
  closeWriter : String → String × Option String
  formDataContentType : String
  newRequestErr : String → String → Option String
  send : HttpRequest → Nat → Except String Response

/-! ## Construction -/

/-- The function `DefReq`. -/
def DefReq (env : Env) (method url : String) (args : List GoValue) : httpClient :=
  let hc : httpClient :=
    { url := none, method := method, header := [], body := "", err := none,
      timeout := 2 * 1000000000, recursionCount := 1 <<< 4, isDebug := false }
  match env.parse (env.sprintf url args) with
  | .error e => { hc with err := some ("DefReq() err:" ++ e ++ "\n") }
  | .ok u => { hc with url := some u }

def Get (env : Env) (url : String) (args : List GoValue) : httpClient :=
  DefReq env methodGet url args

def Post (env : Env) (url : String) (args : List GoValue) : httpClient :=
  DefReq env methodPost url args

def Put (env : Env) (url : String) (args : List GoValue) : httpClient :=
  DefReq env methodPut url args

def Delete (env : Env) (url : String) (args : List GoValue) : httpClient :=
  DefReq env methodDelete url args

/-! ## Chainable configuration -/

/-- The method `Debug`. -/
def Debug (hc : httpClient) : Run httpClient :=
  .done { hc with isDebug := true }

/-- The method `Timeout`. -/
def Timeout (hc : httpClient) (duration : Nat) : Run httpClient :=
  .done { hc with timeout := duration }

/-- The method `Header`; the argument `GoValue.nil` is Go's `header == nil`. -/
def Header (hc : httpClient) (header : GoValue) : Run httpClient :=
  if hc.err.isSome then .done hc
  else match header with
    | .nil => .done hc
    | v =>
      match conv Header.add hc.header "" v hc.recursionCount with
      | (h, .ok) => .done { hc with header := h }
      | (h, .error e) => .done { hc with header := h, err := some ("Header() err:" ++ e ++ " ") }
      | (_, .crash m) => .crash m

/-- The method `Param`; writing `hc.url.RawQuery` crashes on a nil `hc.url`. -/
def Param (hc : httpClient) (param : GoValue) : Run httpClient :=
  if hc.err.isSome then .done hc
  else match param with
    | .nil => .done hc
    | v =>
      match conv Values.add [] "" v hc.recursionCount with
      | (_, .error e) => .done { hc with err := some ("Param() err:" ++ e ++ " ") }
      | (_, .crash m) => .crash m
      | (params, .ok) =>
        match hc.url with
        | none => .crash panicNilDeref
        | some u => .done { hc with url := some { u with rawQuery := Values.Encode params } }

/-- The body and content headers the encoders write: `hc.body.Reset()`, the write,
then `Add` of the content type and of the length of the body. -/
def setBody (hc : httpClient) (body ctype : String) : httpClient :=
  { hc with
    body := body
    header := Header.add (Header.add hc.header contentType ctype) contentLength
      (toString body.utf8ByteSize) }

/-- The method `Stream`; `none` is a nil slice. -/
def Stream (hc : httpClient) (stream : Option String) : Run httpClient :=
  if hc.err.isSome then .done hc
  else match stream with
    | none => .done hc
    | some b => .done (setBody hc b contentTypeStream)

/-- The method `Json`. -/
def Json (env : Env) (hc : httpClient) (str : GoValue) : Run httpClient :=
  if hc.err.isSome then .done hc
  else match str with
    | .nil => .done hc
    | v =>
      match env.marshal v with
      | .error e => .done { hc with err := some ("Json() err:" ++ e ++ " ") }
      | .ok jsonBytes => .done (setBody hc jsonBytes contentTypeJson)

/-- The method `Form`. -/
def Form (hc : httpClient) (form : GoValue) : Run httpClient :=
  if hc.err.isSome then .done hc
  else match form with
    | .nil => .done hc
    | v =>
      match conv Values.add [] "" v hc.recursionCount with
      | (_, .error e) => .done { hc with err := some ("Form() err:" ++ e ++ " ") }
      | (_, .crash m) => .crash m
      | (forms, .ok) => .done (setBody hc (Values.Encode forms) contentTypeForm)

/-- First loop of `Multipart`: `writer.WriteField(k, v)` for each form entry,
stopping at the first error. -/
def writeFields (env : Env) : String → List (String × String) → String × Option String
  | buf, [] => (buf, none)
  | buf, (k, v) :: rest =>
    match env.writeField buf k v with
    | (buf1, some e) => (buf1, some e)
    | (buf1, none) => writeFields env buf1 rest

/-- Second loop of `Multipart`: `CreateFormFile` and `Write` for each file,
stopping at the first error. -/
def writeFiles (env : Env) : String → List File → String × Option String
  | buf, [] => (buf, none)
  | buf, file :: rest =>
    match env.createFormFile buf file.Fieldname file.Filename with
    | (buf1, some e) => (buf1, some e)
    | (buf1, none) =>
      match env.writeData buf1 file.Data with
      | (buf2, some e) => (buf2, some e)
      | (buf2, none) => writeFiles env buf2 rest

/-- The method `Multipart`; `none` is a nil pointer. The body is reset first and
keeps what was written when a write fails. -/
def Multipart (env : Env) (hc : httpClient) (multi : Option MultipartData) : Run httpClient :=
  if hc.err.isSome then .done hc
  else match multi with
    | none => .done hc
    | some m =>
      match writeFields env "" m.Form with
      | (buf1, some e) =>
        .done { hc with body := buf1, err := some ("Multipart() err:" ++ e ++ " ") }
      | (buf1, none) =>
        match writeFiles env buf1 m.Files with
        | (buf2, some e) =>
          .done { hc with body := buf2, err := some ("Multipart() err:" ++ e ++ " ") }
        | (buf2, none) =>
          match env.closeWriter buf2 with
          | (buf3, some e) =>
            .done { hc with body := buf3, err := some ("Multipart() err:" ++ e ++ " ") }
          | (buf3, none) => .done (setBody hc buf3 env.formDataContentType)

/-- One chainable configuration call with its argument. -/
inductive Call where
  | debug
  | timeout (duration : Nat)
  | header (v : GoValue)
  | param (v : GoValue)
  | stream (b : Option String)
  | json (v : GoValue)
  | form (v : GoValue)
  | multipart (m : Option MultipartData)

/-- Runs one configuration call on a builder. -/
def Call.run (env : Env) (hc : httpClient) : Call → Run httpClient
  | .debug => Debug hc
  | .timeout d => Timeout hc d
  | .header v => Header hc v
  | .param v => Param hc v
  | .stream b => Stream hc b
  | .json v => Json env hc v
  | .form v => Form hc v
  | .multipart m => Multipart env hc m

/-- Runs a chain of configuration calls, left to right. -/
def runCalls (env : Env) : httpClient → List Call → Run httpClient
  | hc, [] => .done hc
  | hc, c :: cs => (c.run env hc).bind (fun hc1 => runCalls env hc1 cs)

/-! ## Terminal operations -/

/-- What a terminal operation does to the outside world, in order. -/
inductive Effect where
  | newRequest (method url : String)
  | debugLog
  | send (req : HttpRequest) (timeout : Nat)
  | spawn
  | callback (data : String)
  | errCallback (msg : String)
  deriving DecidableEq, Repr

/-- The method `log`: prints only when the debug flag is set. -/
def logEffects (hc : httpClient) : List Effect :=
  if hc.isDebug then [.debugLog] else []

/-- Result of `Sync`: the returned bytes (`none` for nil) and error (`none` for
nil), or a crash, with the effects performed. -/
structure SyncResult where
  ret : Run (Option String × Option String)
  effects : List Effect

/-- The method `Sync`. -/
def Sync (env : Env) (hc : httpClient) : SyncResult :=
  match hc.err with
  | some e => { ret := .done (none, some e), effects := [] }
  | none =>
    match hc.url with
    | none => { ret := .crash panicNilDeref, effects := [] }
    | some u =>
      let url := env.urlString u
      match env.newRequestErr hc.method url with
      | some e =>
        { ret := .done (none, some ("Sync() err:" ++ e ++ " ")),
          effects := [.newRequest hc.method url] }
      | none =>
        let req : HttpRequest :=
          { method := hc.method, url := url, header := hc.header, body := hc.body }
        let effects := [Effect.newRequest hc.method url] ++ logEffects hc ++
          [Effect.send req hc.timeout]
        match env.send req hc.timeout with
        | .error e => { ret := .done (none, some ("Sync() err:" ++ e ++ " ")), effects := effects }
        | .ok resp =>
          match resp.readAll with
          | .error e =>
            { ret := .done (none, some ("Sync() err:" ++ e ++ " ")), effects := effects }
          | .ok data =>
            if resp.statusCode ≠ 200 then
              { ret := .done (none, some ("Sync() StatusCode:" ++ resp.status ++ " ErrMsg:" ++
                  data ++ " ")),
                effects := effects }
            else { ret := .done (some data, none), effects := effects }

/-- The method `Sync2String`: the text (empty on failure) and the error. -/
def Sync2String (env : Env) (hc : httpClient) : Run (String × Option String) × List Effect :=
  let r := Sync env hc
  match r.ret with
  | .crash m => (.crash m, r.effects)
  | .done (_, some e) => (.done ("", some e), r.effects)
  | .done (data, none) => (.done (data.getD "", none), r.effects)

/-- The function started by `go` in `Async`: one network call, then the callbacks.
On a status other than 200 the error callback is not followed by a `return`. -/
def asyncTask (env : Env) (req : HttpRequest) (timeout : Nat) : List Effect :=
  Effect.send req timeout ::
    match env.send req timeout with
    | .error e => [.errCallback e]
    | .ok resp =>
      match resp.readAll with
      | .error e => [.errCallback e]
      | .ok data =>
        if resp.statusCode ≠ 200 then
          [.errCallback ("Async() StatusCode:" ++ resp.status ++ " ErrMsg:" ++ data ++ " "),
            .callback data]
        else [.callback data]

/-- Result of `Async`: the returned error or a crash, the effects performed before
it returns, and the effects of the function it started. -/
structure AsyncResult where
  ret : Run (Option String)
  effects : List Effect
  background : List Effect

/-- The method `Async`. -/
def Async (env : Env) (hc : httpClient) : AsyncResult :=
  match hc.err with
  | some e => { ret := .done (some e), effects := [], background := [] }
  | none =>
    match hc.url with
    | none => { ret := .crash panicNilDeref, effects := [], background := [] }
    | some u =>
      let url := env.urlString u
      match env.newRequestErr hc.method url with
      | some e =>
        { ret := .done (some ("Async() err:" ++ e ++ " ")),
          effects := [.newRequest hc.method url], background := [] }
      | none =>
        let req : HttpRequest :=
          { method := hc.method, url := url, header := hc.header, body := hc.body }
        { ret := .done none,
          effects := [Effect.newRequest hc.method url] ++ logEffects hc ++ [Effect.spawn],
          background := asyncTask env req hc.timeout }

/-! ## Notions used by the statements -/

/-- Whether the value is the nil interface. -/
def GoValue.isNil : GoValue → Bool
  | .nil => true
  | _ => false

/-- A body-encoding call that has something to encode: `Stream`, `Json`, `Form` or
`Multipart` with a non-nil argument. -/
def Call.encodes : Call → Bool
  | .stream (some _) => true
  | .json v => !v.isNil
  | .form v => !v.isNil
  | .multipart (some _) => true
  | _ => false

/-- The content type a body-encoding call writes. -/
def Call.contentTypeOf (env : Env) : Call → String
  | .stream _ => contentTypeStream
  | .json _ => contentTypeJson
  | .form _ => contentTypeForm
  | .multipart _ => env.formDataContentType
  | _ => ""

/-- The state a configuration call leaves when the sticky error is already set:
`Debug` and `Timeout` still write their field, every other call writes nothing. -/
def Call.afterError (hc : httpClient) : Call → httpClient
  | .debug => { hc with isDebug := true }
  | .timeout d => { hc with timeout := d }
  | _ => hc

/-- Number of `conv` calls on the longest path from the value to a leaf: 1 for a
scalar, a byte sequence or an empty container, 1 more than the deepest child for
a container or a non-nil pointer. -/
def nesting : GoValue → Nat
  | .seq xs => 1 + nestingList xs
  | .map _ es => 1 + nestingEntries es
  | .struct fs => 1 + nestingFields fs
  | .ptr t => 1 + nesting t
  | .nil => 1
  | .str _ => 1
  | .namedStr _ => 1
  | .bytes _ => 1
  | .namedBytes _ => 1
  | .nilPtr => 1
  | .other _ => 1
where
  /-- Deepest nesting among the elements of a sequence. -/
  nestingList : List GoValue → Nat
    | [] => 0
    | x :: xs => max (nesting x) (nestingList xs)
  /-- Deepest nesting among the values of map entries. -/
  nestingEntries : List (String × GoValue) → Nat
    | [] => 0
    | e :: es => max (nesting e.2) (nestingEntries es)
  /-- Deepest nesting among the values of struct fields. -/
  nestingFields : List (Field × GoValue) → Nat
    | [] => 0
    | e :: es => max (nesting e.2) (nestingFields es)

/-- The builder `DefReq` returns when the URL does not parse: the sticky error is
set and `url` is nil. -/
def failedBuilder : httpClient :=
  { url := none, method := methodGet, header := [], body := "",
    err := some "DefReq() err:parse \":\": missing protocol scheme\n",
    timeout := 2 * 1000000000, recursionCount := 1 <<< 4, isDebug := false }

/-- The builder `Get("/search")` returns. -/
def searchBuilder : httpClient :=
  { url := some { scheme := "", host := "", path := "/search", rawQuery := "", fragment := "" },
    method := methodGet, header := [], body := "", err := none,
    timeout := 2 * 1000000000, recursionCount := 1 <<< 4, isDebug := false }

/-- An environment for the examples: URL templates without verbs that name a
relative path, JSON for numbers and booleans only, a multipart writer with the
fixed boundary `b0`, and a network that answers `200 OK` with the body `ok`. -/
def demoEnv : Env where
  sprintf := fun url _ => url
  parse := fun s => .ok { scheme := "", host := "", path := s, rawQuery := "", fragment := "" }
  urlString := fun u => if u.rawQuery = "" then u.path else u.path ++ "?" ++ u.rawQuery
  marshal := fun v =>
    match v with
    | .other r => .ok r
    | _ => .error "json: unsupported type"
  writeField := fun buf k v =>
    (buf ++ "--b0\r\nContent-Disposition: form-data; name=\"" ++ k ++ "\"\r\n\r\n" ++ v ++
      "\r\n", none)
  createFormFile := fun buf field file =>
    (buf ++ "--b0\r\nContent-Disposition: form-data; name=\"" ++ field ++ "\"; filename=\"" ++
      file ++ "\"\r\nContent-Type: application/octet-stream\r\n\r\n", none)
  writeData := fun buf data => (buf ++ data ++ "\r\n", none)
  closeWriter := fun buf => (buf ++ "--b0--\r\n", none)
  formDataContentType := "multipart/form-data; boundary=b0"
  newRequestErr := fun _ _ => none
  send := fun _ _ => .ok { statusCode := 200, status := "200 OK", readAll := .ok "ok" }

/-- The mapping `map[string]interface{}{"a": 1}`. -/
def mapA1 : GoValue := .map .string [("a", .other "1")]

/-- Values made only of scalars of the built-in types (`string`, numbers, booleans,
...), `[]byte` values and slices or arrays of such values, nested to any depth. -/
def leafOrSeq : GoValue → Bool
  | .str _ => true
  | .bytes _ => true
  | .other _ => true
  | .seq xs => leafOrSeqList xs
  | .nil => false
  | .namedStr _ => false
  | .namedBytes _ => false
  | .map _ _ => false
  | .struct _ => false
  | .nilPtr => false
  | .ptr _ => false
where
  /-- Every element of the list is such a value. -/
  leafOrSeqList : List GoValue → Bool
    | [] => true
    | x :: xs => leafOrSeq x && leafOrSeqList xs

/-- Whether `conv` on the value under `key` meets no failure other than the depth
limit: a string, byte sequence, slice or array sits only under a non-empty key, every
map that is read has key type `string`, and nothing on the way makes `conv` crash
(a nil interface, a nil pointer, a value of a named string or byte-slice type, an
unexported struct field, an entry of a map keyed by a named string type). -/
def failureFree : String → GoValue → Bool
  | key, .str _ => key != ""
  | key, .bytes _ => key != ""
  | _, .other _ => true
  | key, .seq xs => key != "" && failureFreeSeq key 0 xs
  | key, .map .string es => failureFreeEntries (dotJoin key) es
  | _, .map .namedString es => es.isEmpty
  | _, .map .other _ => false
  | key, .struct fs => failureFreeFields (dotJoin key) fs
  | key, .ptr t => failureFree key t
  | _, .nil => false
  | _, .namedStr _ => false
  | _, .namedBytes _ => false
  | _, .nilPtr => false
where
  /-- The elements from index `i` on, each under its index key. -/
  failureFreeSeq (key : String) : Nat → List GoValue → Bool
    | _, [] => true
    | i, x :: xs => failureFree (indexKey key i) x && failureFreeSeq key (i + 1) xs
  /-- The entries of a map, each under its joined key. -/
  failureFreeEntries (pre : String) : List (String × GoValue) → Bool
    | [] => true
    | e :: es => failureFree (pre ++ e.1) e.2 && failureFreeEntries pre es
  /-- The fields of a struct, each exported and under its joined key. -/
  failureFreeFields (pre : String) : List (Field × GoValue) → Bool
    | [] => true
    | e :: es =>
      e.1.exported && failureFree (pre ++ fieldKey e.1) e.2 && failureFreeFields pre es

/-- Whether the value contains, at any nesting level, a map whose key type is not of
kind string. -/
def hasNonStringKeyMap : GoValue → Bool
  | .map .other _ => true
  | .map .string es => anyEntry es
  | .map .namedString es => anyEntry es
  | .seq xs => anyElem xs
  | .struct fs => anyField fs
  | .ptr t => hasNonStringKeyMap t
  | .nil => false
  | .str _ => false
  | .namedStr _ => false
  | .bytes _ => false
  | .namedBytes _ => false
  | .nilPtr => false
  | .other _ => false
where
  /-- Some element contains such a map. -/
  anyElem : List GoValue → Bool
    | [] => false
    | x :: xs => hasNonStringKeyMap x || anyElem xs
  /-- Some entry value contains such a map. -/
  anyEntry : List (String × GoValue) → Bool
    | [] => false
    | e :: es => hasNonStringKeyMap e.2 || anyEntry es
  /-- Some field value contains such a map. -/
  anyField : List (Field × GoValue) → Bool
    | [] => false
    | e :: es => hasNonStringKeyMap e.2 || anyField es

/-- A number behind `n` non-nil pointers: `n + 1` calls of `conv`. -/
def pointerChain : Nat → GoValue
  | 0 => .other "1"
  | n + 1 => .ptr (pointerChain n)

/-- The values the source guards with `key == ""`: strings, byte sequences, slices and
arrays (of any element type, named or not). -/
def needsKey : GoValue → Bool
  | .str _ => true
  | .namedStr _ => true
  | .bytes _ => true
  | .namedBytes _ => true
  | .seq _ => true
  | _ => false

/-- A struct value `struct{ P *T; N int }{nil, 1}`: a nil pointer field followed by a
number. -/
def nilThenNumber : GoValue :=
  .struct [(⟨"P", "", true⟩, .nilPtr), (⟨"N", "", true⟩, .other "1")]

/-- A struct value `struct{ P *T; M map[int]string }{nil, map[int]string{}}`: a nil
pointer field followed by an empty map with a non-string key type. -/
def nilThenIntMap : GoValue :=
  .struct [(⟨"P", "", true⟩, .nilPtr), (⟨"M", "", true⟩, .map .other [])]

/-- Order of flattened pairs by key. -/
def pairLE (p q : String × String) : Prop := keyLE p.1 q.1

instance : DecidableRel pairLE := fun p q => inferInstanceAs (Decidable (keyLE p.1 q.1))

instance : IsTotal String keyLE :=
  ⟨fun a b => le_total (a.toList.map Char.toNat) (b.toList.map Char.toNat)⟩

instance : IsTrans String keyLE :=
  ⟨fun a b c (h1 : keyLE a b) (h2 : keyLE b c) =>
    (le_trans h1 h2 : a.toList.map Char.toNat ≤ c.toList.map Char.toNat)⟩

instance : IsTotal (String × String) pairLE :=
  ⟨fun p q => le_total (p.1.toList.map Char.toNat) (q.1.toList.map Char.toNat)⟩

instance : IsTrans (String × String) pairLE :=
  ⟨fun p q r (h1 : pairLE p q) (h2 : pairLE q r) =>
    (le_trans h1 h2 : p.1.toList.map Char.toNat ≤ r.1.toList.map Char.toNat)⟩

/-- The query string the specification describes for a list of flattened pairs: the
pairs sorted by key (pairs with the same key keep their order of emission), each
URL-escaped and written `key=value`, joined by `&`. -/
def specQuery (pairs : List (String × String)) : String :=
  String.intercalate "&" ((List.insertionSort pairLE pairs).map encodePair)

/-- The mapping `{"a": 1, "b": [1, 2]}`. -/
def mapAB : GoValue :=
  .map .string [("a", .other "1"), ("b", .seq [.other "1", .other "2"])]

/-- The mapping `Test_GetParam` passes to `Param`, its entries in the order written:
two numbers, a slice of three numbers and a pointer to a `User` record. -/
def testParam : GoValue :=
  .map .string
    [("a", .other "1"), ("b", .other "2"),
      ("c", .seq [.other "1", .other "2", .other "3"]),
      ("d", .ptr (.struct [(⟨"Name", "", true⟩, .str "大黄"), (⟨"Age", "", true⟩, .other "18")]))]

/-- The environment of the examples with a network that answers `404 Not Found` with
the body `not found`. -/
def notFoundEnv : Env :=
  { demoEnv with
    send := fun _ _ =>
      .ok { statusCode := 404, status := "404 Not Found", readAll := .ok "not found" } }

/-- The builder `Get("/search?x=1")` returns: the query of the template is `x=1`. -/
def queryBuilder : httpClient :=
  { searchBuilder with
    url := some { scheme := "", host := "", path := "/search", rawQuery := "x=1",
                  fragment := "" } }

/-- A call of `Header`, `Param`, `Stream`, `Json`, `Form` or `Multipart` whose argument
is Go's nil. -/
def Call.isAbsent : Call → Bool
  | .header v => v.isNil
  | .param v => v.isNil
  | .stream none => true
  | .json v => v.isNil
  | .form v => v.isNil
  | .multipart none => true
  | _ => false

/-- Whether `msg` contains `part` as a substring. -/
def containsText (msg part : String) : Prop :=
  ∃ before after : String, msg = before ++ part ++ after

/-- The calls that flatten or serialise a value: `Header`, `Param`, `Json`, `Form`. -/
def Call.takesValue : Call → Bool
  | .header _ => true
  | .param _ => true
  | .json _ => true
  | .form _ => true
  | _ => false

/-- A struct value `struct{ A int; M map[int]string }{1, map[int]string{}}`: a number
followed by an empty map with a non-string key type. -/
def numberThenIntMap : GoValue :=
  .struct [(⟨"A", "", true⟩, .other "1"), (⟨"M", "", true⟩, .map .other [])]

/-- The scalar leaves of a value with the key built from the path to each, in
traversal order: a string, a byte sequence or another scalar is one leaf carrying its
string form under the key reached; element `i` of a slice or array extends the key by
`[i]`, an entry of a string-keyed map or a struct field extends it by the entry key or
the field name, after a dot unless the key is empty; a non-nil pointer keeps the key.
Values on which `conv` never succeeds have no leaves. -/
def leaves : String → GoValue → List (String × String)
  | key, .str x => [(key, x)]
  | key, .bytes b => [(key, b)]
  | key, .other r => [(key, r)]
  | key, .seq xs => leavesSeq key 0 xs
  | key, .map .string es => leavesEntries (dotJoin key) es
  | _, .map .namedString _ => []
  | _, .map .other _ => []
  | key, .struct fs => leavesFields (dotJoin key) fs
  | key, .ptr t => leaves key t
  | _, .nil => []
  | _, .namedStr _ => []
  | _, .namedBytes _ => []
  | _, .nilPtr => []
where
  /-- Leaves of the elements from index `i` on. -/
  leavesSeq (key : String) : Nat → List GoValue → List (String × String)
    | _, [] => []
    | i, x :: xs => leaves (indexKey key i) x ++ leavesSeq key (i + 1) xs
  /-- Leaves of the entries of a map. -/
  leavesEntries (pre : String) : List (String × GoValue) → List (String × String)
    | [] => []
    | e :: es => leaves (pre ++ e.1) e.2 ++ leavesEntries pre es
  /-- Leaves of the fields of a struct. -/
  leavesFields (pre : String) : List (Field × GoValue) → List (String × String)
    | [] => []
    | e :: es => leaves (pre ++ fieldKey e.1) e.2 ++ leavesFields pre es

/-- The mapping `{"a.b": 1, "a": {"b": 2}}`, iterated in the order written. -/
def collideAB : GoValue :=
  .map .string [("a.b", .other "1"), ("a", .map .string [("b", .other "2")])]

/-- The same mapping `{"a.b": 1, "a": {"b": 2}}`, iterated in the other order. -/
def collideBA : GoValue :=
  .map .string [("a", .map .string [("b", .other "2")]), ("a.b", .other "1")]

/-- The record `User{Name: "大黄", Age: 18}` of the tests. -/
def testUser : GoValue :=
  .struct [(⟨"Name", "", true⟩, .str "大黄"), (⟨"Age", "", true⟩, .other "18")]

mutual
/-- `Reordered v w`: the value `w` is the value `v` with the entries of its string-keyed
maps, at any nesting level, iterated in another order. -/
inductive Reordered : GoValue → GoValue → Prop
  | same (v : GoValue) : Reordered v v
  | seq {xs ys : List GoValue} : ReorderedList xs ys → Reordered (.seq xs) (.seq ys)
  | struct {fs gs : List (Field × GoValue)} :
      ReorderedFields fs gs → Reordered (.struct fs) (.struct gs)
  | ptr {t u : GoValue} : Reordered t u → Reordered (.ptr t) (.ptr u)
  | map {es mid fs : List (String × GoValue)} :
      ReorderedEntries es mid → mid.Perm fs → Reordered (.map .string es) (.map .string fs)
/-- Element by element, the elements of two sequences are `Reordered`. -/
inductive ReorderedList : List GoValue → List GoValue → Prop
  | nil : ReorderedList [] []
  | cons {x y : GoValue} {xs ys : List GoValue} :
      Reordered x y → ReorderedList xs ys → ReorderedList (x :: xs) (y :: ys)
/-- Entry by entry, two entry lists have the same keys and `Reordered` values. -/
inductive ReorderedEntries : List (String × GoValue) → List (String × GoValue) → Prop
  | nil : ReorderedEntries [] []
  | cons {k : String} {x y : GoValue} {es fs : List (String × GoValue)} :
      Reordered x y → ReorderedEntries es fs → ReorderedEntries ((k, x) :: es) ((k, y) :: fs)
/-- Field by field, two field lists have the same fields and `Reordered` values. -/
inductive ReorderedFields : List (Field × GoValue) → List (Field × GoValue) → Prop
  | nil : ReorderedFields [] []
  | cons {f : Field} {x y : GoValue} {es fs : List (Field × GoValue)} :
      Reordered x y → ReorderedFields es fs → ReorderedFields ((f, x) :: es) ((f, y) :: fs)
end

/-! # Theorems -/

/-! ## Sticky error (C1, C2) -/

theorem run_keeps_error (env : Env) (hc : httpClient) (e : String) (c : Call)
    (h : hc.err = some e) : c.run env hc = .done (c.afterError hc) := by
  cases c <;>
    simp [Call.run, Call.afterError, Debug, Timeout, Header, Param, Stream, Json, Form,
      Multipart, h]

theorem afterError_err (hc : httpClient) (c : Call) : (c.afterError hc).err = hc.err := by
  cases c <;> rfl

/-- C1. First error wins: from a builder whose sticky error is `e`, any chain of
configuration calls ends (without crashing) in a builder whose sticky error is still
`e`; on it `Sync` returns no bytes and exactly `e`, `Async` returns exactly `e`, and
neither builds a request, sends one, starts the background function or calls back. -/
theorem sticky_error_first_wins (env : Env) (hc : httpClient) (e : String) (cs : List Call)
    (h : hc.err = some e) :
    ∃ hc1, runCalls env hc cs = .done hc1 ∧ hc1.err = some e ∧
      (Sync env hc1).ret = .done (none, some e) ∧ (Sync env hc1).effects = [] ∧
      (Async env hc1).ret = .done (some e) ∧ (Async env hc1).effects = [] ∧
      (Async env hc1).background = [] := by
  induction cs generalizing hc with
  | nil => exact ⟨hc, rfl, h, by simp [Sync, Async, h]⟩
  | cons c cs ih =>
    have h1 : (c.afterError hc).err = some e := by rw [afterError_err, h]
    obtain ⟨hc1, hrun, rest⟩ := ih (c.afterError hc) h1
    exact ⟨hc1, by simp [runCalls, run_keeps_error env hc e c h, Run.bind, hrun], rest⟩

/-- Witness of C1: a chain of all eight calls on the builder of a failed `DefReq`. -/
theorem sticky_error_first_wins_witness :
    ∃ hc1, runCalls demoEnv failedBuilder
        [.debug, .timeout 5, .header (.other "1"), .param (.str "x"), .stream (some "ab"),
          .json (.other "1"), .form (.nilPtr), .multipart (some ⟨[], []⟩)] = .done hc1 ∧
      hc1.err = some "DefReq() err:parse \":\": missing protocol scheme\n" ∧
      (Sync demoEnv hc1).ret = .done (none, some "DefReq() err:parse \":\": missing protocol scheme\n") ∧
      (Sync demoEnv hc1).effects = [] ∧
      (Async demoEnv hc1).ret = .done (some "DefReq() err:parse \":\": missing protocol scheme\n") ∧
      (Async demoEnv hc1).effects = [] ∧ (Async demoEnv hc1).background = [] :=
  sticky_error_first_wins demoEnv failedBuilder _ _ rfl

/-- C2, as stated, fails: on a builder whose sticky error is set, `Debug` changes
the debug flag and `Timeout` changes the timeout. -/
theorem frozen_state_counterexample :
    failedBuilder.err ≠ none ∧ Debug failedBuilder ≠ .done failedBuilder ∧
      Timeout failedBuilder 5 ≠ .done failedBuilder := by
  decide

/-- C2, amended. On a builder whose sticky error is set, `Header`, `Param`, `Stream`,
`Json`, `Form` and `Multipart` return the builder with its whole state unchanged;
`Debug` changes only the debug flag (to true) and `Timeout` only the timeout (to its
argument). -/
theorem frozen_state_after_error (env : Env) (hc : httpClient) (c : Call)
    (h : hc.err ≠ none) :
    c.run env hc = .done
      (match c with
        | .debug => { hc with isDebug := true }
        | .timeout d => { hc with timeout := d }
        | _ => hc) := by
  obtain ⟨e, he⟩ := Option.ne_none_iff_exists'.mp h
  rw [run_keeps_error env hc e c he]
  cases c <;> rfl

/-- Witness of the amended C2: `Header` on the builder of a failed `DefReq`. -/
theorem frozen_state_after_error_witness :
    failedBuilder.err ≠ none ∧
      Call.run demoEnv failedBuilder (.header (.other "1")) = .done failedBuilder :=
  ⟨by decide, frozen_state_after_error demoEnv failedBuilder (.header (.other "1")) (by decide)⟩

/-! ## Body encoders (C3, C4) -/

theorem get_append (m : Multimap) (k v k1 : String) :
    Multimap.get (Multimap.append m k v) k1 =
      if k = k1 then Multimap.get m k1 ++ [v] else Multimap.get m k1 := by
  induction m with
  | nil => by_cases h : k = k1 <;> simp [Multimap.append, Multimap.get, h]
  | cons p rest ih =>
    obtain ⟨k2, vs⟩ := p
    by_cases h2 : k2 = k
    · subst h2
      by_cases h : k2 = k1 <;> simp [Multimap.append, Multimap.get, h]
    · by_cases h : k = k1
      · subst h
        simp [Multimap.append, Multimap.get, h2, ih]
      · by_cases h3 : k2 = k1
        · subst h3
          simp [Multimap.append, Multimap.get, h2, h]
        · simp [Multimap.append, Multimap.get, h2, h, h3, ih]

theorem json_done (env : Env) (hc h1 : httpClient) (v : GoValue)
    (he : hc.err = none) (hv : v.isNil = false) (hrun : Json env hc v = .done h1)
    (h1e : h1.err = none) :
    ∃ b, env.marshal v = .ok b ∧ h1 = setBody hc b contentTypeJson := by
  unfold Json at hrun
  simp only [he, Option.isSome_none, Bool.false_eq_true, if_false] at hrun
  split at hrun
  · simp [GoValue.isNil] at hv
  · split at hrun
    · simp at hrun
      subst hrun
      simp at h1e
    · next b hb =>
      simp at hrun
      exact ⟨b, hb, hrun.symm⟩

theorem form_done (hc h1 : httpClient) (v : GoValue)
    (he : hc.err = none) (hv : v.isNil = false) (hrun : Form hc v = .done h1)
    (h1e : h1.err = none) :
    ∃ forms, conv Values.add [] "" v hc.recursionCount = (forms, .ok) ∧
      h1 = setBody hc (Values.Encode forms) contentTypeForm := by
  unfold Form at hrun
  simp only [he, Option.isSome_none, Bool.false_eq_true, if_false] at hrun
  split at hrun
  · simp [GoValue.isNil] at hv
  · split at hrun
    · simp at hrun
      subst hrun
      simp at h1e
    · simp at hrun
    · next forms hf =>
      simp at hrun
      exact ⟨forms, hf, hrun.symm⟩

theorem multipart_done (env : Env) (hc h1 : httpClient) (m : MultipartData)
    (he : hc.err = none) (hrun : Multipart env hc (some m) = .done h1)
    (h1e : h1.err = none) :
    ∃ b1 b2 b3, writeFields env "" m.Form = (b1, none) ∧
      writeFiles env b1 m.Files = (b2, none) ∧
      env.closeWriter b2 = (b3, none) ∧ h1 = setBody hc b3 env.formDataContentType := by
  unfold Multipart at hrun
  simp only [he, Option.isSome_none, Bool.false_eq_true, if_false] at hrun
  split at hrun
  · simp at hrun; subst hrun; simp at h1e
  · next b1 hb1 =>
    split at hrun
    · simp at hrun; subst hrun; simp at h1e
    · next b2 hb2 =>
      split at hrun
      · simp at hrun; subst hrun; simp at h1e
      · next b3 hb3 =>
        simp at hrun
        exact ⟨b1, b2, b3, hb1, hb2, hb3, hrun.symm⟩

theorem setBody_contentType (hc : httpClient) (b ct : String) :
    Multimap.get (setBody hc b ct).header contentType =
      Multimap.get hc.header contentType ++ [ct] := by
  have h1 : canonicalMIMEHeaderKey contentType = contentType := by decide
  have h2 : canonicalMIMEHeaderKey contentLength = contentLength := by decide
  have h3 : contentLength ≠ contentType := by decide
  simp [setBody, Header.add, get_append, h1, h2, h3]

theorem setBody_contentLength (hc : httpClient) (b ct : String) :
    Multimap.get (setBody hc b ct).header contentLength =
      Multimap.get hc.header contentLength ++ [toString b.utf8ByteSize] := by
  have h1 : canonicalMIMEHeaderKey contentType = contentType := by decide
  have h2 : canonicalMIMEHeaderKey contentLength = contentLength := by decide
  have h3 : contentType ≠ contentLength := by decide
  simp [setBody, Header.add, get_append, h1, h2, h3]

theorem setBody_err (hc : httpClient) (b ct : String) : (setBody hc b ct).err = hc.err := rfl

theorem setBody_recursionCount (hc : httpClient) (b ct : String) :
    (setBody hc b ct).recursionCount = hc.recursionCount := rfl

/-- A successful body-encoding call writes a body that depends only on its argument,
the environment and the depth limit: on any other error-free builder with the same
depth limit it writes the same body with the same content type. -/
theorem encodes_transfer (env : Env) (hc fresh h1 : httpClient) (c : Call)
    (he : hc.err = none) (hf : fresh.err = none)
    (hrc : fresh.recursionCount = hc.recursionCount)
    (hc1 : c.encodes = true) (hrun : c.run env hc = .done h1) (h1e : h1.err = none) :
    ∃ b, h1 = setBody hc b (c.contentTypeOf env) ∧
      c.run env fresh = .done (setBody fresh b (c.contentTypeOf env)) := by
  cases c with
  | debug => simp [Call.encodes] at hc1
  | timeout d => simp [Call.encodes] at hc1
  | header v => simp [Call.encodes] at hc1
  | param v => simp [Call.encodes] at hc1
  | stream b =>
    cases b with
    | none => simp [Call.encodes] at hc1
    | some b =>
      simp [Call.run, Stream, he] at hrun
      exact ⟨b, hrun.symm, by simp [Call.run, Stream, hf, Call.contentTypeOf]⟩
  | json v =>
    have hv : v.isNil = false := by simpa [Call.encodes] using hc1
    obtain ⟨b, hb, hh⟩ := json_done env hc h1 v he hv hrun h1e
    refine ⟨b, hh, ?_⟩
    simp only [Call.run, Call.contentTypeOf]
    unfold Json
    simp only [hf, Option.isSome_none, Bool.false_eq_true, if_false]
    split
    · simp [GoValue.isNil] at hv
    · simp [hb]
  | form v =>
    have hv : v.isNil = false := by simpa [Call.encodes] using hc1
    obtain ⟨forms, hb, hh⟩ := form_done hc h1 v he hv hrun h1e
    refine ⟨Values.Encode forms, hh, ?_⟩
    simp only [Call.run, Call.contentTypeOf]
    unfold Form
    simp only [hf, Option.isSome_none, Bool.false_eq_true, if_false]
    split
    · simp [GoValue.isNil] at hv
    · simp [hrc, hb]
  | multipart m =>
    cases m with
    | none => simp [Call.encodes] at hc1
    | some m =>
      obtain ⟨b1, b2, b3, hb1, hb2, hb3, hh⟩ := multipart_done env hc h1 m he hrun h1e
      refine ⟨b3, hh, ?_⟩
      simp [Call.run, Call.contentTypeOf, Multipart, hf, hb1, hb2, hb3]

/-- C3 is broken by the code: after `Stream` of two bytes and then `Form` of the mapping
`a: 1` on the builder of `Get("/search")`, both calls succeeding, the body is the one
of the second call alone, but `Content-Type` holds the value of the first call
followed by that of the second, and so does `Content-Length`: the headers of the
discarded body remain, neither header holds only the value written by the second
call. -/
theorem content_headers_not_superseded :
    ∃ h1 h2, Stream searchBuilder (some "ab") = .done h1 ∧ h1.err = none ∧
      Form h1 mapA1 = .done h2 ∧ h2.err = none ∧ h2.body = "a=1" ∧
      Multimap.get h2.header contentType = [contentTypeStream, contentTypeForm] ∧
      Multimap.get h2.header contentType ≠ [contentTypeForm] ∧
      Multimap.get h2.header contentLength = ["2", "3"] ∧
      Multimap.get h2.header contentLength ≠ ["3"] :=
  ⟨_, _, rfl, rfl, rfl, rfl, by decide, by decide, by decide, by decide, by decide⟩

/-- What the encoders do to the content headers, in general: after two successful
body-encoding calls in sequence on an error-free builder, `Content-Type` holds the
values it held before followed by the content type of the first call and then that of
the second, and `Content-Length` holds the values it held before followed by the body
length after the first call and then the body length after the second. -/
theorem content_headers_appended (env : Env) (hc h1 h2 : httpClient) (c1 c2 : Call)
    (he : hc.err = none) (e1 : c1.encodes = true) (e2 : c2.encodes = true)
    (run1 : c1.run env hc = .done h1) (ok1 : h1.err = none)
    (run2 : c2.run env h1 = .done h2) (ok2 : h2.err = none) :
    Multimap.get h2.header contentType =
        Multimap.get hc.header contentType ++ [c1.contentTypeOf env, c2.contentTypeOf env] ∧
      Multimap.get h2.header contentLength =
        Multimap.get hc.header contentLength ++
          [toString h1.body.utf8ByteSize, toString h2.body.utf8ByteSize] := by
  obtain ⟨b1, hb1, -⟩ := encodes_transfer env hc hc h1 c1 he he rfl e1 run1 ok1
  obtain ⟨b2, hb2, -⟩ := encodes_transfer env h1 h1 h2 c2 ok1 ok1 rfl e2 run2 ok2
  subst hb1
  subst hb2
  simp [setBody_contentType, setBody_contentLength]
  simp [setBody]

/-- The same on `Json(1)` then `Form` of the mapping `a: 1` on the builder of
`Get("/search")`, with a JSON encoder that renders the number as `1`. -/
theorem content_headers_appended_json_form :
    Multimap.get
        (setBody (setBody searchBuilder "1" contentTypeJson) "a=1" contentTypeForm).header
        contentType = [] ++ ["application/json", "application/x-www-form-urlencoded"] ∧
      Multimap.get
        (setBody (setBody searchBuilder "1" contentTypeJson) "a=1" contentTypeForm).header
        contentLength = [] ++ ["1", "3"] :=
  content_headers_appended demoEnv searchBuilder (setBody searchBuilder "1" contentTypeJson)
    (setBody (setBody searchBuilder "1" contentTypeJson) "a=1" contentTypeForm)
    (.json (.other "1")) (.form mapA1) rfl rfl rfl rfl rfl rfl rfl

/-- C4. Body last-write-wins: after two successful body-encoding calls in sequence on
an error-free builder, the body is exactly the body the second call writes on a fresh
builder: the same call on any error-free builder `fresh` with the same depth limit
(every builder `DefReq` makes has the limit 16) succeeds and leaves the same bytes,
whatever the first call wrote. -/
theorem body_last_write_wins (env : Env) (hc fresh h1 h2 : httpClient) (c1 c2 : Call)
    (he : hc.err = none) (hf : fresh.err = none)
    (hrc : fresh.recursionCount = hc.recursionCount)
    (e1 : c1.encodes = true) (e2 : c2.encodes = true)
    (run1 : c1.run env hc = .done h1) (ok1 : h1.err = none)
    (run2 : c2.run env h1 = .done h2) (ok2 : h2.err = none) :
    ∃ f, c2.run env fresh = .done f ∧ f.err = none ∧ h2.body = f.body := by
  obtain ⟨b1, hb1, -⟩ := encodes_transfer env hc hc h1 c1 he he rfl e1 run1 ok1
  have hrc1 : fresh.recursionCount = h1.recursionCount := by
    rw [hb1, setBody_recursionCount, hrc]
  obtain ⟨b2, hb2, hfr⟩ := encodes_transfer env h1 fresh h2 c2 ok1 hf hrc1 e2 run2 ok2
  exact ⟨_, hfr, by rw [setBody_err, hf], by rw [hb2]; rfl⟩

/-- Witness of C4: `Stream` of `ab` then `Form` of the mapping `a: 1`, compared with
`Form` alone on the builder of `Get("/search")`. -/
theorem body_last_write_wins_witness :
    ∃ f, Call.run demoEnv searchBuilder (.form mapA1) = .done f ∧ f.err = none ∧
      (setBody (setBody searchBuilder "ab" contentTypeStream) "a=1" contentTypeForm).body =
        f.body :=
  body_last_write_wins demoEnv searchBuilder searchBuilder
    (setBody searchBuilder "ab" contentTypeStream)
    (setBody (setBody searchBuilder "ab" contentTypeStream) "a=1" contentTypeForm)
    (.stream (some "ab")) (.form mapA1) rfl rfl rfl rfl rfl rfl rfl rfl rfl

/-! ## The flattener: loops and depth (C5 to C9) -/

theorem forEach_ok {σ α : Type} (f : σ → α → σ × Status) (l : List α)
    (h : ∀ x ∈ l, ∀ s, (f s x).2 = .ok) : ∀ s, (forEach f s l).2 = .ok := by
  induction l with
  | nil => intro s; rfl
  | cons x xs ih =>
    intro s
    have hx := h x (List.mem_cons_self x xs) s
    have ih1 := ih (fun y hy => h y (List.mem_cons_of_mem x hy))
    unfold forEach
    split
    · exact ih1 _
    · next r hr =>
      exact absurd hx (fun hok => hr (f s x).1 (by rw [← hok]))

theorem forEach_stops {σ α : Type} (f : σ → α → σ × Status) (l : List α) (st : Status)
    (hst : st ≠ .ok) (hall : ∀ x ∈ l, ∀ s, (f s x).2 = .ok ∨ (f s x).2 = st)
    (hex : ∃ x ∈ l, ∀ s, (f s x).2 = st) : ∀ s, (forEach f s l).2 = st := by
  induction l with
  | nil => obtain ⟨x, hx, -⟩ := hex; cases hx
  | cons x xs ih =>
    intro s
    unfold forEach
    split
    · next s1 hs1 =>
      have hxok : (f s x).2 = .ok := by rw [hs1]
      apply ih (fun y hy => hall y (List.mem_cons_of_mem x hy))
      obtain ⟨y, hy, hyst⟩ := hex
      rcases List.mem_cons.mp hy with rfl | hy1
      · exact absurd ((hyst s).symm.trans hxok) hst
      · exact ⟨y, hy1, hyst⟩
    · next r hr =>
      rcases hall x (List.mem_cons_self x xs) s with h1 | h1
      · exact absurd h1 (fun hok => hr (f s x).1 (by rw [← hok]))
      · exact h1

theorem forEach_not_ok {σ α : Type} (f : σ → α → σ × Status) (l : List α)
    (hex : ∃ x ∈ l, ∀ s, (f s x).2 ≠ .ok) : ∀ s, (forEach f s l).2 ≠ .ok := by
  induction l with
  | nil => obtain ⟨x, hx, -⟩ := hex; cases hx
  | cons x xs ih =>
    intro s
    unfold forEach
    split
    · next s1 hs1 =>
      have hxok : (f s x).2 = .ok := by rw [hs1]
      apply ih
      obtain ⟨y, hy, hyst⟩ := hex
      rcases List.mem_cons.mp hy with rfl | hy1
      · exact absurd hxok (hyst s)
      · exact ⟨y, hy1, hyst⟩
    · next r hr =>
      intro hok
      exact hr (f s x).1 (by rw [← hok])

theorem nesting_pos (v : GoValue) : 1 ≤ nesting v := by
  cases v <;> simp [nesting]

theorem nestingList_le (xs : List GoValue) (n : Nat) :
    nesting.nestingList xs ≤ n ↔ ∀ x ∈ xs, nesting x ≤ n := by
  induction xs with
  | nil => simp [nesting.nestingList]
  | cons x xs ih => simp [nesting.nestingList, ih]

theorem nestingEntries_le (es : List (String × GoValue)) (n : Nat) :
    nesting.nestingEntries es ≤ n ↔ ∀ e ∈ es, nesting e.2 ≤ n := by
  induction es with
  | nil => simp [nesting.nestingEntries]
  | cons e es ih => simp [nesting.nestingEntries, ih]

theorem nestingFields_le (fs : List (Field × GoValue)) (n : Nat) :
    nesting.nestingFields fs ≤ n ↔ ∀ e ∈ fs, nesting e.2 ≤ n := by
  induction fs with
  | nil => simp [nesting.nestingFields]
  | cons e es ih => simp [nesting.nestingFields, ih]

theorem failureFreeSeq_iff (key : String) (xs : List GoValue) (i : Nat) :
    failureFree.failureFreeSeq key i xs = true ↔
      ∀ p ∈ xs.enumFrom i, failureFree (indexKey key p.1) p.2 = true := by
  induction xs generalizing i with
  | nil => simp [failureFree.failureFreeSeq]
  | cons x xs ih => simp [failureFree.failureFreeSeq, List.enumFrom, ih]

theorem failureFreeEntries_iff (pre : String) (es : List (String × GoValue)) :
    failureFree.failureFreeEntries pre es = true ↔
      ∀ e ∈ es, failureFree (pre ++ e.1) e.2 = true := by
  induction es with
  | nil => simp [failureFree.failureFreeEntries]
  | cons e es ih => simp [failureFree.failureFreeEntries, ih]

theorem failureFreeFields_iff (pre : String) (fs : List (Field × GoValue)) :
    failureFree.failureFreeFields pre fs = true ↔
      ∀ e ∈ fs, e.1.exported = true ∧ failureFree (pre ++ fieldKey e.1) e.2 = true := by
  induction fs with
  | nil => simp [failureFree.failureFreeFields]
  | cons e es ih => simp [failureFree.failureFreeFields, ih, and_assoc]

theorem snd_mem_of_mem_enumFrom {α : Type} (xs : List α) (i : Nat) (p : Nat × α)
    (h : p ∈ xs.enumFrom i) : p.2 ∈ xs := by
  induction xs generalizing i with
  | nil => simp at h
  | cons x xs ih =>
    simp only [List.enumFrom, List.mem_cons] at h
    rcases h with rfl | h
    · simp
    · exact List.mem_cons_of_mem _ (ih (i + 1) h)

theorem exists_mem_enumFrom {α : Type} (xs : List α) (i : Nat) (x : α) (h : x ∈ xs) :
    ∃ p ∈ xs.enumFrom i, p.2 = x := by
  induction xs generalizing i with
  | nil => simp at h
  | cons y ys ih =>
    rcases List.mem_cons.mp h with rfl | h1
    · exact ⟨(i, x), by simp [List.enumFrom], rfl⟩
    · obtain ⟨p, hp, hpx⟩ := ih (i + 1) h1
      exact ⟨p, by simp [List.enumFrom, hp], hpx⟩

theorem indexKey_ne_empty (key : String) (i : Nat) : indexKey key i ≠ "" := by
  intro h
  have h1 := congrArg String.length h
  simp [indexKey, String.length_append] at h1
  exact absurd h1.2 (by decide)

/-- Depth behaviour of `conv` on a value with no other failure condition: success when
the counter is at least the nesting, the depth error when it is smaller. -/
theorem conv_depth {σ : Type} (add : σ → String → String → σ) (n : Nat) :
    ∀ (key : String) (v : GoValue) (s : σ), failureFree key v = true →
      (nesting v ≤ n → (conv add s key v n).2 = .ok) ∧
      (n < nesting v → (conv add s key v n).2 = .error errDepth) := by
  induction n with
  | zero =>
    intro key v s _
    refine ⟨fun h => ?_, fun _ => by simp [conv]⟩
    have := nesting_pos v
    omega
  | succ n ih =>
    intro key v s hv
    have hne : Status.error errDepth ≠ Status.ok := by simp
    cases v with
    | nil => simp [failureFree] at hv
    | namedStr x => simp [failureFree] at hv
    | namedBytes x => simp [failureFree] at hv
    | nilPtr => simp [failureFree] at hv
    | str x =>
      have hk : key ≠ "" := by simpa [failureFree] using hv
      simp [conv, hk, nesting]
    | bytes x =>
      have hk : key ≠ "" := by simpa [failureFree] using hv
      simp [conv, hk, nesting]
    | other r => simp [conv, nesting]
    | ptr t =>
      have ht : failureFree key t = true := by simpa [failureFree] using hv
      have := ih key t s ht
      simp only [conv, nesting]
      constructor
      · intro h; exact this.1 (by omega)
      · intro h; exact this.2 (by omega)
    | seq xs =>
      simp only [failureFree, Bool.and_eq_true, bne_iff_ne, ne_eq] at hv
      obtain ⟨hk, hxs⟩ := hv
      rw [failureFreeSeq_iff] at hxs
      simp only [conv, hk, if_false, nesting, List.enum]
      constructor
      · intro h
        have hle : ∀ x ∈ xs, nesting x ≤ n := (nestingList_le xs n).mp (by omega)
        apply forEach_ok
        intro p hp s1
        exact (ih _ p.2 s1 (hxs p hp)).1 (hle p.2 (snd_mem_of_mem_enumFrom xs 0 p hp))
      · intro h
        have hnot : ¬ nesting.nestingList xs ≤ n := by omega
        rw [nestingList_le] at hnot
        push_neg at hnot
        obtain ⟨x, hx, hxn⟩ := hnot
        obtain ⟨p, hp, hpx⟩ := exists_mem_enumFrom xs 0 x hx
        apply forEach_stops _ _ _ hne
        · intro q hq s1
          rcases Nat.lt_or_ge n (nesting q.2) with hlt | hge
          · exact Or.inr ((ih _ q.2 s1 (hxs q hq)).2 hlt)
          · exact Or.inl ((ih _ q.2 s1 (hxs q hq)).1 hge)
        · exact ⟨p, hp, fun s1 => (ih _ p.2 s1 (hxs p hp)).2 (by rw [hpx]; exact hxn)⟩
    | map kk es =>
      cases kk with
      | other => simp [failureFree] at hv
      | namedString =>
        have hes : es = [] := by simpa [failureFree] using hv
        subst hes
        simp [conv, forEach, nesting, nesting.nestingEntries]
      | string =>
        simp only [failureFree] at hv
        rw [failureFreeEntries_iff] at hv
        simp only [conv, nesting]
        constructor
        · intro h
          have hle : ∀ e ∈ es, nesting e.2 ≤ n := (nestingEntries_le es n).mp (by omega)
          apply forEach_ok
          intro e he s1
          exact (ih _ e.2 s1 (hv e he)).1 (hle e he)
        · intro h
          have hnot : ¬ nesting.nestingEntries es ≤ n := by omega
          rw [nestingEntries_le] at hnot
          push_neg at hnot
          obtain ⟨e, he, hen⟩ := hnot
          apply forEach_stops _ _ _ hne
          · intro q hq s1
            rcases Nat.lt_or_ge n (nesting q.2) with hlt | hge
            · exact Or.inr ((ih _ q.2 s1 (hv q hq)).2 hlt)
            · exact Or.inl ((ih _ q.2 s1 (hv q hq)).1 hge)
          · exact ⟨e, he, fun s1 => (ih _ e.2 s1 (hv e he)).2 hen⟩
    | struct fs =>
      simp only [failureFree] at hv
      rw [failureFreeFields_iff] at hv
      simp only [conv, nesting]
      constructor
      · intro h
        have hle : ∀ e ∈ fs, nesting e.2 ≤ n := (nestingFields_le fs n).mp (by omega)
        apply forEach_ok
        intro e he s1
        simp only [(hv e he).1, if_true]
        exact (ih _ e.2 s1 (hv e he).2).1 (hle e he)
      · intro h
        have hnot : ¬ nesting.nestingFields fs ≤ n := by omega
        rw [nestingFields_le] at hnot
        push_neg at hnot
        obtain ⟨e, he, hen⟩ := hnot
        apply forEach_stops _ _ _ hne
        · intro q hq s1
          simp only [(hv q hq).1, if_true]
          rcases Nat.lt_or_ge n (nesting q.2) with hlt | hge
          · exact Or.inr ((ih _ q.2 s1 (hv q hq).2).2 hlt)
          · exact Or.inl ((ih _ q.2 s1 (hv q hq).2).1 hge)
        · refine ⟨e, he, fun s1 => ?_⟩
          simp only [(hv e he).1, if_true]
          exact (ih _ e.2 s1 (hv e he).2).2 hen

theorem leafOrSeqList_iff (xs : List GoValue) :
    leafOrSeq.leafOrSeqList xs = true ↔ ∀ x ∈ xs, leafOrSeq x = true := by
  induction xs with
  | nil => simp [leafOrSeq.leafOrSeqList]
  | cons x xs ih => simp [leafOrSeq.leafOrSeqList, ih]

theorem anyElem_iff (xs : List GoValue) :
    hasNonStringKeyMap.anyElem xs = true ↔ ∃ x ∈ xs, hasNonStringKeyMap x = true := by
  induction xs with
  | nil => simp [hasNonStringKeyMap.anyElem]
  | cons x xs ih => simp [hasNonStringKeyMap.anyElem, ih]

theorem anyEntry_iff (es : List (String × GoValue)) :
    hasNonStringKeyMap.anyEntry es = true ↔ ∃ e ∈ es, hasNonStringKeyMap e.2 = true := by
  induction es with
  | nil => simp [hasNonStringKeyMap.anyEntry]
  | cons e es ih => simp [hasNonStringKeyMap.anyEntry, ih]

theorem anyField_iff (fs : List (Field × GoValue)) :
    hasNonStringKeyMap.anyField fs = true ↔ ∃ e ∈ fs, hasNonStringKeyMap e.2 = true := by
  induction fs with
  | nil => simp [hasNonStringKeyMap.anyField]
  | cons e es ih => simp [hasNonStringKeyMap.anyField, ih]

/-- With the empty key, a string, a byte sequence and a slice or array are rejected
at every depth counter, and nothing is emitted. -/
theorem conv_empty_key_rejected {σ : Type} (add : σ → String → String → σ) (s : σ)
    (v : GoValue) (n : Nat) (hv : needsKey v = true) :
    ∃ e, conv add s "" v n = (s, .error e) := by
  cases n with
  | zero => exact ⟨errDepth, rfl⟩
  | succ n =>
    cases v <;> simp [needsKey] at hv <;> simp [conv]

/-- A value that contains a map with a non-string key type is never flattened with
success: `conv` returns an error or crashes, whatever the key and the counter. -/
theorem conv_never_ok_of_nonStringKeyMap {σ : Type} (add : σ → String → String → σ)
    (n : Nat) : ∀ (key : String) (v : GoValue) (s : σ), hasNonStringKeyMap v = true →
      (conv add s key v n).2 ≠ .ok := by
  induction n with
  | zero => intro key v s _; simp [conv]
  | succ n ih =>
    intro key v s hv
    cases v with
    | nil => simp [hasNonStringKeyMap] at hv
    | str x => simp [hasNonStringKeyMap] at hv
    | namedStr x => simp [hasNonStringKeyMap] at hv
    | bytes x => simp [hasNonStringKeyMap] at hv
    | namedBytes x => simp [hasNonStringKeyMap] at hv
    | nilPtr => simp [hasNonStringKeyMap] at hv
    | other r => simp [hasNonStringKeyMap] at hv
    | ptr t =>
      simp only [conv]
      exact ih key t s (by simpa [hasNonStringKeyMap] using hv)
    | seq xs =>
      simp only [hasNonStringKeyMap] at hv
      obtain ⟨x, hx, hxm⟩ := (anyElem_iff xs).mp hv
      obtain ⟨p, hp, hpx⟩ := exists_mem_enumFrom xs 0 x hx
      simp only [conv, List.enum]
      split
      · simp
      · exact forEach_not_ok _ _ ⟨p, hp, fun s1 => ih _ p.2 s1 (by rw [hpx]; exact hxm)⟩ s
    | map kk es =>
      cases kk with
      | other => simp [conv]
      | namedString =>
        simp only [hasNonStringKeyMap] at hv
        obtain ⟨e, he, -⟩ := (anyEntry_iff es).mp hv
        simp only [conv]
        exact forEach_not_ok _ _ ⟨e, he, fun s1 => by simp⟩ s
      | string =>
        simp only [hasNonStringKeyMap] at hv
        obtain ⟨e, he, hem⟩ := (anyEntry_iff es).mp hv
        simp only [conv]
        exact forEach_not_ok _ _ ⟨e, he, fun s1 => ih _ e.2 s1 hem⟩ s
    | struct fs =>
      simp only [hasNonStringKeyMap] at hv
      obtain ⟨e, he, hem⟩ := (anyField_iff fs).mp hv
      simp only [conv]
      refine forEach_not_ok _ _ ⟨e, he, fun s1 => ?_⟩ s
      split
      · exact ih _ e.2 s1 hem
      · simp

theorem conv_ok_of_leafOrSeq {σ : Type} (add : σ → String → String → σ) (n : Nat) :
    ∀ (key : String) (v : GoValue) (s : σ), leafOrSeq v = true → key ≠ "" →
      nesting v ≤ n → (conv add s key v n).2 = .ok := by
  induction n with
  | zero =>
    intro key v s _ _ h
    have := nesting_pos v
    omega
  | succ n ih =>
    intro key v s hv hk hn
    cases v with
    | nil => simp [leafOrSeq] at hv
    | namedStr x => simp [leafOrSeq] at hv
    | namedBytes x => simp [leafOrSeq] at hv
    | nilPtr => simp [leafOrSeq] at hv
    | ptr t => simp [leafOrSeq] at hv
    | map kk es => simp [leafOrSeq] at hv
    | struct fs => simp [leafOrSeq] at hv
    | str x => simp [conv, hk]
    | bytes x => simp [conv, hk]
    | other r => simp [conv]
    | seq xs =>
      simp only [leafOrSeq] at hv
      rw [leafOrSeqList_iff] at hv
      simp only [nesting] at hn
      have hle : ∀ x ∈ xs, nesting x ≤ n := (nestingList_le xs n).mp (by omega)
      simp only [conv, hk, if_false, List.enum]
      apply forEach_ok
      intro p hp s1
      have hmem := snd_mem_of_mem_enumFrom xs 0 p hp
      exact ih _ p.2 s1 (hv p.2 hmem) (indexKey_ne_empty key p.1) (hle p.2 hmem)

theorem defReq_recursionCount (env : Env) (method url : String) (args : List GoValue) :
    (DefReq env method url args).recursionCount = 16 := by
  unfold DefReq
  split <;> rfl

/-- C5 is broken by the code: `conv` with the empty key accepts a number. On the
number 1 with the default counter 16 it returns no error and emits the pair with the
empty key; through `Param` on the builder of `Get("/search")` the query becomes `=1`
and no error is set. -/
theorem conv_empty_key_number_accepted :
    flatten "" (.other "1") 16 = ([("", "1")], .ok) ∧
      Param searchBuilder (.other "1") = .done
        { searchBuilder with
          url := some { scheme := "", host := "", path := "/search", rawQuery := "=1",
                        fragment := "" } } ∧
      searchBuilder.err = none := by
  decide

/-- C6, as stated, fails: a one-element slice of numbers under the non-empty key `k`
with depth counter 1 returns the depth error, because its element is flattened with
the counter 0. -/
theorem conv_under_key_counterexample :
    leafOrSeq (.seq [.other "1"]) = true ∧ "k" ≠ "" ∧ 1 ≤ 1 ∧
      flatten "k" (.seq [.other "1"]) 1 = ([], .error errDepth) := by
  decide

/-- C6, amended. Under a non-empty key, `conv` returns no error on every value made
of scalars of the built-in types, `[]byte` values and slices or arrays of such values,
provided the depth counter is at least the nesting of the value: 1 for a scalar or a
byte sequence, one more than its deepest element for a slice or array. -/
theorem conv_succeeds_under_key {σ : Type} (add : σ → String → String → σ) (s : σ)
    (key : String) (v : GoValue) (n : Nat)
    (hv : leafOrSeq v = true) (hk : key ≠ "") (hn : nesting v ≤ n) :
    (conv add s key v n).2 = .ok :=
  conv_ok_of_leafOrSeq add n key v s hv hk hn

/-- Witness of the amended C6: the slice `[1, "x"]` under the key `k` with counter 2. -/
theorem conv_succeeds_under_key_witness :
    (conv PairLog.add [] "k" (.seq [.other "1", .str "x"]) 2).2 = .ok :=
  conv_succeeds_under_key PairLog.add [] "k" (.seq [.other "1", .str "x"]) 2
    (by decide) (by decide) (by decide)

/-- C7. The depth limit is exact: on a value with no other failure condition, `conv`
with counter `n` returns no error when the nesting of the value is at most `n` and
returns the depth error when the nesting is larger; every builder `DefReq` makes has
the limit 16, with which a nesting of 16 succeeds and a nesting of 17 fails. -/
theorem depth_limit_exact {σ : Type} (add : σ → String → String → σ) (s : σ)
    (key : String) (v : GoValue) (n : Nat) (hv : failureFree key v = true) :
    (nesting v ≤ n → (conv add s key v n).2 = .ok) ∧
      (n < nesting v → (conv add s key v n).2 = .error errDepth) ∧
      ∀ (env : Env) (method url : String) (args : List GoValue),
        (DefReq env method url args).recursionCount = 16 ∧
        (nesting v = 16 →
          (conv add s key v (DefReq env method url args).recursionCount).2 = .ok) ∧
        (nesting v = 17 →
          (conv add s key v (DefReq env method url args).recursionCount).2 =
            .error errDepth) := by
  refine ⟨(conv_depth add n key v s hv).1, (conv_depth add n key v s hv).2, ?_⟩
  intro env method url args
  rw [defReq_recursionCount]
  exact ⟨rfl, fun h => (conv_depth add 16 key v s hv).1 (by omega),
    fun h => (conv_depth add 16 key v s hv).2 (by omega)⟩

/-- Witness of C7: a number behind 15 pointers has nesting 16 and is flattened with
the counter 16. -/
theorem depth_limit_exact_witness :
    failureFree "k" (pointerChain 15) = true ∧ nesting (pointerChain 15) = 16 ∧
      (conv PairLog.add [] "k" (pointerChain 15) 16).2 = .ok :=
  ⟨by decide, by decide,
    (depth_limit_exact PairLog.add [] "k" (pointerChain 15) 16 (by decide)).1 (by decide)⟩

/-- C8 is broken by the code: on a struct whose first field is a nil pointer and whose
second field is a map with a non-string key type, `conv` crashes on the nil pointer
and never returns the error for the map. -/
theorem conv_crashes_before_map_key_error :
    hasNonStringKeyMap nilThenIntMap = true ∧
      flatten "" nilThenIntMap 16 = ([], .crash panicZeroValue) := by
  decide

/-- C9 is broken by the code: on a nil pointer `conv` crashes at
`valueOf.Elem().Interface()`, alone under a key with counter 1 and as a field of a
struct, whose later fields are then not flattened. -/
theorem conv_nil_pointer_crashes :
    flatten "k" .nilPtr 1 = ([], .crash panicZeroValue) ∧
      flatten "" nilThenNumber 16 = ([], .crash panicZeroValue) := by
  decide

/-! ## Query encoding (C10) -/

theorem forEach_sim {σ τ α : Type} (R : σ → τ → Prop) (f : σ → α → σ × Status)
    (g : τ → α → τ × Status) (l : List α)
    (h : ∀ x ∈ l, ∀ s t, R s t → R (f s x).1 (g t x).1 ∧ (f s x).2 = (g t x).2) :
    ∀ s t, R s t → R (forEach f s l).1 (forEach g t l).1 ∧
      (forEach f s l).2 = (forEach g t l).2 := by
  induction l with
  | nil => intro s t hst; exact ⟨hst, rfl⟩
  | cons x xs ih =>
    intro s t hst
    obtain ⟨h1, h2⟩ := h x (List.mem_cons_self x xs) s t hst
    have ih1 := ih (fun y hy => h y (List.mem_cons_of_mem x hy))
    rcases hf : f s x with ⟨s1, st1⟩
    rcases hg : g t x with ⟨t1, st2⟩
    rw [hf, hg] at h1 h2
    simp only at h1 h2
    subst h2
    unfold forEach
    rw [hf, hg]
    cases st1 with
    | ok => exact ih1 s1 t1 h1
    | error e => exact ⟨h1, rfl⟩
    | crash m => exact ⟨h1, rfl⟩

/-- Two sinks whose `Add` preserves a relation stay related through `conv`, which
returns the same status on both. -/
theorem conv_sim {σ τ : Type} (R : σ → τ → Prop) (add : σ → String → String → σ)
    (add1 : τ → String → String → τ)
    (hadd : ∀ s t k x, R s t → R (add s k x) (add1 t k x)) (n : Nat) :
    ∀ (key : String) (v : GoValue) (s : σ) (t : τ), R s t →
      R (conv add s key v n).1 (conv add1 t key v n).1 ∧
        (conv add s key v n).2 = (conv add1 t key v n).2 := by
  induction n with
  | zero => intro key v s t hst; exact ⟨hst, rfl⟩
  | succ n ih =>
    intro key v s t hst
    cases v with
    | nil => exact ⟨hst, rfl⟩
    | nilPtr => exact ⟨hst, rfl⟩
    | str x =>
      simp only [conv]
      split
      · exact ⟨hst, rfl⟩
      · exact ⟨hadd _ _ _ _ hst, rfl⟩
    | bytes x =>
      simp only [conv]
      split
      · exact ⟨hst, rfl⟩
      · exact ⟨hadd _ _ _ _ hst, rfl⟩
    | namedStr x =>
      simp only [conv]
      split <;> exact ⟨hst, rfl⟩
    | namedBytes x =>
      simp only [conv]
      split <;> exact ⟨hst, rfl⟩
    | other r => exact ⟨hadd _ _ _ _ hst, rfl⟩
    | ptr target =>
      simp only [conv]
      exact ih key target s t hst
    | seq xs =>
      simp only [conv]
      split
      · exact ⟨hst, rfl⟩
      · exact forEach_sim R _ _ _ (fun p _ s1 t1 h1 => ih _ p.2 s1 t1 h1) s t hst
    | map kk es =>
      cases kk with
      | other => exact ⟨hst, rfl⟩
      | namedString =>
        simp only [conv]
        exact forEach_sim R _ _ _ (fun p _ s1 t1 h1 => ⟨h1, rfl⟩) s t hst
      | string =>
        simp only [conv]
        exact forEach_sim R _ _ _ (fun p _ s1 t1 h1 => ih _ p.2 s1 t1 h1) s t hst
    | struct fs =>
      simp only [conv]
      refine forEach_sim R _ _ _ (fun p _ s1 t1 h1 => ?_) s t hst
      split
      · exact ih _ p.2 s1 t1 h1
      · exact ⟨h1, rfl⟩

/-- The multimap obtained by adding the pairs in order, starting from `m`. -/
theorem foldl_add_snoc (m : Multimap) (l : List (String × String)) (k x : String) :
    (l ++ [(k, x)]).foldl (fun a p => Values.add a p.1 p.2) m =
      Values.add (l.foldl (fun a p => Values.add a p.1 p.2) m) k x := by
  simp [List.foldl_append]

/-- `conv` into `url.Values` adds the flattened pairs in emission order. -/
theorem conv_values_eq (key : String) (v : GoValue) (n : Nat) :
    conv Values.add [] key v n =
      ((flatten key v n).1.foldl (fun a p => Values.add a p.1 p.2) [], (flatten key v n).2) := by
  have h := conv_sim (fun (s : Multimap) (t : PairLog) =>
      s = t.foldl (fun a p => Values.add a p.1 p.2) []) Values.add PairLog.add
    (fun s t k x hst => by
      simp only [PairLog.add]
      rw [foldl_add_snoc, ← hst]) n key v [] [] rfl
  exact Prod.ext h.1 h.2

theorem keys_append (m : Multimap) (k x : String) :
    Multimap.keys (Multimap.append m k x) =
      if k ∈ Multimap.keys m then Multimap.keys m else Multimap.keys m ++ [k] := by
  induction m with
  | nil => simp [Multimap.append, Multimap.keys]
  | cons p rest ih =>
    obtain ⟨k2, vs⟩ := p
    simp only [Multimap.keys] at ih
    by_cases h2 : k2 = k
    · subst h2
      simp [Multimap.append, Multimap.keys]
    · have h3 : ¬ k = k2 := fun h => h2 h.symm
      by_cases h4 : k ∈ List.map Prod.fst rest
      · simp [Multimap.append, Multimap.keys, h2, h3, ih, h4]
      · simp [Multimap.append, Multimap.keys, h2, h3, ih, h4]

/-- Adding pairs in order: the values under a key are the values already there
followed by the values of the added pairs with that key, in order. -/
theorem get_foldl_add (l : List (String × String)) (m : Multimap) (k : String) :
    Multimap.get (l.foldl (fun a p => Values.add a p.1 p.2) m) k =
      Multimap.get m k ++ (l.filter (fun p => decide (p.1 = k))).map Prod.snd := by
  induction l generalizing m with
  | nil => simp
  | cons p l ih =>
    rw [List.foldl_cons, ih]
    simp only [Values.add, get_append]
    by_cases h : p.1 = k <;> simp [h, List.filter_cons]

theorem keys_foldl_add_nodup (l : List (String × String)) (m : Multimap)
    (hm : (Multimap.keys m).Nodup) :
    (Multimap.keys (l.foldl (fun a p => Values.add a p.1 p.2) m)).Nodup := by
  induction l generalizing m with
  | nil => simpa using hm
  | cons p l ih =>
    simp only [List.foldl_cons]
    apply ih
    simp only [Values.add, keys_append]
    split
    · exact hm
    · next h => exact List.Nodup.append hm (List.nodup_singleton _) (by simpa using h)

theorem mem_keys_foldl_add (l : List (String × String)) (m : Multimap) (k : String) :
    k ∈ Multimap.keys (l.foldl (fun a p => Values.add a p.1 p.2) m) ↔
      k ∈ Multimap.keys m ∨ ∃ p ∈ l, p.1 = k := by
  induction l generalizing m with
  | nil => simp
  | cons p l ih =>
    rw [List.foldl_cons, ih]
    simp only [Values.add, keys_append]
    by_cases h : p.1 ∈ Multimap.keys m
    · simp only [h, if_true, List.mem_cons, exists_eq_or_imp]
      constructor
      · rintro (h1 | h1)
        · exact Or.inl h1
        · exact Or.inr (Or.inr h1)
      · rintro (h1 | h1 | h1)
        · exact Or.inl h1
        · exact Or.inl (h1 ▸ h)
        · exact Or.inr h1
    · simp only [h, if_false, List.mem_append, List.mem_singleton, List.mem_cons,
        exists_eq_or_imp, List.not_mem_nil, or_false]
      constructor
      · rintro ((h1 | h1) | h1)
        · exact Or.inl h1
        · exact Or.inr (Or.inl h1.symm)
        · exact Or.inr (Or.inr h1)
      · rintro (h1 | h1 | h1)
        · exact Or.inl (Or.inl h1)
        · exact Or.inl (Or.inr h1.symm)
        · exact Or.inr h1

theorem keyLE_refl (a : String) : keyLE a a := le_refl _

theorem keyLE_trans {a b c : String} (h1 : keyLE a b) (h2 : keyLE b c) : keyLE a c :=
  le_trans h1 h2

theorem keyLE_total (a b : String) : keyLE a b ∨ keyLE b a := le_total _ _

theorem keyLE_antisymm {a b : String} (h1 : keyLE a b) (h2 : keyLE b a) : a = b := by
  have h : a.toList.map Char.toNat = b.toList.map Char.toNat := le_antisymm h1 h2
  have hinj : Function.Injective Char.toNat := by
    intro c d hcd
    have := congrArg Char.ofNat hcd
    simpa using this
  have h3 := List.map_injective_iff.mpr hinj h
  exact String.ext h3

theorem filter_orderedInsert (p : String × String) (l : List (String × String)) (k : String) :
    (List.orderedInsert pairLE p l).filter (fun q => decide (q.1 = k)) =
      if p.1 = k then p :: l.filter (fun q => decide (q.1 = k))
      else l.filter (fun q => decide (q.1 = k)) := by
  induction l with
  | nil => by_cases h : p.1 = k <;> simp [h]
  | cons q l ih =>
    simp only [List.orderedInsert]
    split
    · by_cases h : p.1 = k <;> simp [List.filter_cons, h]
    · next hle =>
      have hne : p.1 = k → ¬ q.1 = k := by
        intro h1 h2
        apply hle
        show keyLE p.1 q.1
        rw [h1, h2]
        exact keyLE_refl k
      by_cases h : p.1 = k
      · simp [List.filter_cons, ih, h, hne h]
      · simp [List.filter_cons, ih, h]

/-- Insertion sort by key is stable: the pairs of one key keep their order. -/
theorem filter_insertionSort (l : List (String × String)) (k : String) :
    (List.insertionSort pairLE l).filter (fun q => decide (q.1 = k)) =
      l.filter (fun q => decide (q.1 = k)) := by
  induction l with
  | nil => rfl
  | cons p l ih =>
    simp only [List.insertionSort, filter_orderedInsert, ih]
    by_cases h : p.1 = k <;> simp [List.filter_cons, h]

/-- Two lists of pairs sorted by key that agree on the pairs of every key are equal. -/
theorem sorted_eq_of_filter_eq (l1 : List (String × String)) :
    ∀ l2 : List (String × String), l1.Sorted pairLE → l2.Sorted pairLE →
      (∀ k, l1.filter (fun q => decide (q.1 = k)) = l2.filter (fun q => decide (q.1 = k))) →
      l1 = l2 := by
  induction l1 with
  | nil =>
    intro l2 _ _ hf
    cases l2 with
    | nil => rfl
    | cons q u =>
      have := hf q.1
      simp [List.filter_cons] at this
  | cons p t ih =>
    intro l2 h1 h2 hf
    cases l2 with
    | nil =>
      have := hf p.1
      simp [List.filter_cons] at this
    | cons q u =>
      have hp : ∀ x ∈ t, pairLE p x := (List.sorted_cons.mp h1).1
      have hq : ∀ x ∈ u, pairLE q x := (List.sorted_cons.mp h2).1
      have hqmem : q ∈ (p :: t).filter (fun x => decide (x.1 = q.1)) := by
        rw [hf q.1]; simp [List.filter_cons]
      have hpmem : p ∈ (q :: u).filter (fun x => decide (x.1 = p.1)) := by
        rw [← hf p.1]; simp [List.filter_cons]
      have hpq : keyLE p.1 q.1 := by
        rcases List.mem_cons.mp (List.mem_filter.mp hqmem).1 with h | h
        · rw [h]; exact keyLE_refl _
        · exact hp q h
      have hqp : keyLE q.1 p.1 := by
        rcases List.mem_cons.mp (List.mem_filter.mp hpmem).1 with h | h
        · rw [h]; exact keyLE_refl _
        · exact hq p h
      have hkey : p.1 = q.1 := keyLE_antisymm hpq hqp
      have hhead := hf p.1
      simp only [List.filter_cons, decide_True, if_true, hkey] at hhead
      simp only [hkey.symm, decide_True, if_true] at hhead
      have hpq_eq : p = q := (List.cons.inj hhead).1
      subst hpq_eq
      have htail : t = u := by
        apply ih u (List.sorted_cons.mp h1).2 (List.sorted_cons.mp h2).2
        intro k
        have hk := hf k
        by_cases hpk : p.1 = k
        · simp only [List.filter_cons, hpk, decide_True, if_true] at hk
          exact (List.cons.inj hk).2
        · simpa [List.filter_cons, hpk] using hk
      rw [htail]

theorem flatMap_select {β : Type} (K : List String) (hK : K.Nodup) (k0 : String)
    (g : String → List β) :
    K.flatMap (fun k => if k = k0 then g k else []) = if k0 ∈ K then g k0 else [] := by
  induction K with
  | nil => simp
  | cons k K ih =>
    have hk : k ∉ K := (List.nodup_cons.mp hK).1
    rw [List.flatMap_cons, ih (List.nodup_cons.mp hK).2]
    by_cases h : k = k0
    · subst h
      simp [hk]
    · have h1 : ¬ k0 = k := fun h2 => h h2.symm
      simp [h, h1]

theorem sortedPairs_sorted (m : Multimap) : (Values.sortedPairs m).Sorted pairLE := by
  unfold Values.sortedPairs List.Sorted
  rw [List.pairwise_flatMap]
  constructor
  · intro k _
    rw [List.pairwise_map]
    exact List.pairwise_of_forall (fun _ _ => keyLE_refl k)
  · have hs : (List.insertionSort keyLE (Multimap.keys m)).Sorted keyLE :=
      List.sorted_insertionSort keyLE _
    refine List.Pairwise.imp ?_ hs
    intro a b hab x hx y hy
    obtain ⟨_, _, rfl⟩ := List.mem_map.mp hx
    obtain ⟨_, _, rfl⟩ := List.mem_map.mp hy
    exact hab

theorem filter_sortedPairs (m : Multimap) (hm : (Multimap.keys m).Nodup) (k0 : String) :
    (Values.sortedPairs m).filter (fun q => decide (q.1 = k0)) =
      if k0 ∈ Multimap.keys m then (Multimap.get m k0).map (fun x => (k0, x)) else [] := by
  unfold Values.sortedPairs
  rw [List.filter_flatMap]
  have hfun : (fun k => List.filter (fun q : String × String => decide (q.1 = k0))
        ((Multimap.get m k).map (fun x => (k, x)))) =
      fun k => if k = k0 then (Multimap.get m k).map (fun x => (k, x)) else [] := by
    funext k
    by_cases h : k = k0
    · simp [h, List.filter_map, Function.comp_def]
    · simp [h, List.filter_map, Function.comp_def]
  rw [hfun, flatMap_select _ ((List.perm_insertionSort keyLE _).nodup_iff.mpr hm)]
  simp [List.mem_insertionSort]

/-- The order in which `url.Values.Encode` writes the pairs added by `conv` is the stable
sort by key of the pairs in emission order. -/
theorem sortedPairs_foldl_add (l : List (String × String)) :
    Values.sortedPairs (l.foldl (fun a p => Values.add a p.1 p.2) []) =
      List.insertionSort pairLE l := by
  apply sorted_eq_of_filter_eq _ _ (sortedPairs_sorted _) (List.sorted_insertionSort pairLE l)
  intro k
  rw [filter_insertionSort, filter_sortedPairs _ (keys_foldl_add_nodup l [] List.nodup_nil)]
  by_cases h : ∃ p ∈ l, p.1 = k
  · have hmem : k ∈ Multimap.keys (l.foldl (fun a p => Values.add a p.1 p.2) []) :=
      (mem_keys_foldl_add l [] k).mpr (Or.inr h)
    rw [if_pos hmem, get_foldl_add]
    simp only [Multimap.get, List.nil_append, List.map_map]
    conv_rhs => rw [← List.map_id (List.filter (fun q => decide (q.1 = k)) l)]
    apply List.map_congr_left
    intro p hp
    have hpk : p.1 = k := by simpa using (List.mem_filter.mp hp).2
    simp [← hpk]
  · have hmem : k ∉ Multimap.keys (l.foldl (fun a p => Values.add a p.1 p.2) []) := by
      intro hk
      rcases (mem_keys_foldl_add l [] k).mp hk with h1 | h1
      · simp [Multimap.keys] at h1
      · exact h h1
    rw [if_neg hmem]
    symm
    rw [List.filter_eq_nil_iff]
    intro p hp hpk
    exact h ⟨p, hp, by simpa using hpk⟩

theorem encode_foldl_add (l : List (String × String)) :
    Values.Encode (l.foldl (fun a p => Values.add a p.1 p.2) []) = specQuery l := by
  unfold Values.Encode specQuery
  rw [sortedPairs_foldl_add]

theorem flatten_nil_not_ok (key : String) (n : Nat) : (flatten key .nil n).2 ≠ .ok := by
  cases n <;> simp [flatten, conv]

theorem defReq_url_of_ok (env : Env) (method url : String) (args : List GoValue)
    (h : (DefReq env method url args).err = none) :
    ∃ u, (DefReq env method url args).url = some u := by
  unfold DefReq at h ⊢
  cases hp : env.parse (env.sprintf url args) <;> simp [hp] at h ⊢

theorem param_ok (hc : httpClient) (u : URL) (v : GoValue) (he : hc.err = none)
    (hu : hc.url = some u) (hv : (flatten "" v hc.recursionCount).2 = .ok) :
    Param hc v = .done
      { hc with
        url := some { u with rawQuery := specQuery (flatten "" v hc.recursionCount).1 } } := by
  unfold Param
  simp only [he, Option.isSome_none, Bool.false_eq_true, if_false]
  split
  · exact absurd hv (flatten_nil_not_ok _ _)
  · rw [conv_values_eq, hv]
    simp only [hu, encode_foldl_add]

/-- C10. `Param` encodes the flattened pairs into the URL query: on an error-free
builder and a value whose flattening (with the empty key and the builder's depth
limit) succeeds, `Param` leaves the builder unchanged except for the raw query of its
URL, which becomes the flattened pairs sorted by key, each URL-escaped and written
`key=value`, joined by `&`. `Param` of the mapping `a: 1, b: [1, 2]` on `Get("/search")`
gives `a=1&b%5B0%5D=1&b%5B1%5D=2`; the mapping of `Test_GetParam` yields the keys `a`,
`b`, `c[0]`, `c[1]`, `c[2]`, `d.Name`, `d.Age`. -/
theorem param_encodes_query :
    (∀ (hc : httpClient) (u : URL) (v : GoValue), hc.err = none → hc.url = some u →
      (flatten "" v hc.recursionCount).2 = .ok →
      Param hc v = .done
        { hc with
          url := some { u with rawQuery := specQuery (flatten "" v hc.recursionCount).1 } }) ∧
    (∀ env : Env, (Get env "/search" []).err = none →
      ∃ hc1 u1, Param (Get env "/search" []) mapAB = .done hc1 ∧ hc1.err = none ∧
        hc1.url = some u1 ∧ u1.rawQuery = "a=1&b%5B0%5D=1&b%5B1%5D=2") ∧
    (flatten "" testParam 16).2 = .ok ∧
    (flatten "" testParam 16).1.map Prod.fst =
      ["a", "b", "c[0]", "c[1]", "c[2]", "d.Name", "d.Age"] ∧
    specQuery (flatten "" testParam 16).1 =
      "a=1&b=2&c%5B0%5D=1&c%5B1%5D=2&c%5B2%5D=3&d.Age=18&d.Name=%E5%A4%A7%E9%BB%84" := by
  refine ⟨param_ok, ?_, by decide, by decide, by decide⟩
  intro env henv
  have hrc : (Get env "/search" []).recursionCount = 16 := defReq_recursionCount _ _ _ _
  obtain ⟨u, hurl⟩ := defReq_url_of_ok env methodGet "/search" [] henv
  have hflat : (flatten "" mapAB (Get env "/search" []).recursionCount).2 = .ok := by
    rw [hrc]; decide
  have hq : specQuery (flatten "" mapAB 16).1 = "a=1&b%5B0%5D=1&b%5B1%5D=2" := by decide
  refine ⟨_, _, param_ok _ u mapAB henv hurl hflat, henv, rfl, ?_⟩
  rw [hrc]
  exact hq

/-- Witness of C10: `Param` of the mapping `a: 1, b: [1, 2]` on the builder of
`Get("/search")`. -/
theorem param_encodes_query_witness :
    Param searchBuilder mapAB = .done
      { searchBuilder with
        url := some { scheme := "", host := "", path := "/search",
                      rawQuery := "a=1&b%5B0%5D=1&b%5B1%5D=2", fragment := "" } } :=
  param_encodes_query.1 searchBuilder
    { scheme := "", host := "", path := "/search", rawQuery := "", fragment := "" }
    mapAB rfl rfl (by decide)

/-! ## Pointers, terminal operations and absent arguments (C12, C13, C14, C18) -/

/-- C18. A present reference is transparent apart from one unit of depth: for every
sink, key, value and counter `n`, `conv` on a non-nil pointer to the value with counter
`n + 1` gives the same sink (the same pairs added in the same order) and the same
status as `conv` on the value itself under the same key with counter `n`. -/
theorem conv_pointer_transparent {σ : Type} (add : σ → String → String → σ) (s : σ)
    (key : String) (v : GoValue) (n : Nat) :
    conv add s key (.ptr v) (n + 1) = conv add s key v n := by
  simp only [conv]

theorem sync_status (env : Env) (hc : httpClient) (u : URL) (resp : Response)
    (b : String) (he : hc.err = none) (hu : hc.url = some u)
    (hreq : env.newRequestErr hc.method (env.urlString u) = none)
    (hsend : env.send
      { method := hc.method, url := env.urlString u, header := hc.header, body := hc.body }
      hc.timeout = .ok resp)
    (hread : resp.readAll = .ok b) :
    ((Sync env hc).ret = .done (some b, none) ↔ resp.statusCode = 200) ∧
      (resp.statusCode ≠ 200 →
        (Sync env hc).ret = .done (none,
          some ("Sync() StatusCode:" ++ resp.status ++ " ErrMsg:" ++ b ++ " ")) ∧
        containsText ("Sync() StatusCode:" ++ resp.status ++ " ErrMsg:" ++ b ++ " ") b) := by
  by_cases hs : resp.statusCode = 200
  · simp [Sync, he, hu, hreq, hsend, hread, hs]
  · simp only [Sync, he, hu, hreq, hsend, hread, hs, ne_eq, not_false_eq_true, if_true,
      iff_false, forall_const, true_and]
    refine ⟨by simp, "Sync() StatusCode:" ++ resp.status ++ " ErrMsg:", " ", rfl⟩

/-- C12. `Sync` classifies the response by status: on an error-free builder whose
request is built and answered with status `s` and fully read body `b`, `Sync` returns
`b` with no error exactly when `s` is 200; for every other status (201 and 204
included) it returns no bytes and the error `Sync() StatusCode:<status> ErrMsg:<b> `,
whose message contains `b`. A network answering 404 with the body `not found` gives an
error containing `not found`; one answering 200 with the body `ok` gives the bytes `ok`. -/
theorem sync_classifies_by_status :
    (∀ (env : Env) (hc : httpClient) (u : URL) (resp : Response) (b : String),
      hc.err = none → hc.url = some u →
      env.newRequestErr hc.method (env.urlString u) = none →
      env.send
        { method := hc.method, url := env.urlString u, header := hc.header, body := hc.body }
        hc.timeout = .ok resp →
      resp.readAll = .ok b →
      ((Sync env hc).ret = .done (some b, none) ↔ resp.statusCode = 200) ∧
        (resp.statusCode ≠ 200 →
          (Sync env hc).ret = .done (none,
            some ("Sync() StatusCode:" ++ resp.status ++ " ErrMsg:" ++ b ++ " ")) ∧
          containsText ("Sync() StatusCode:" ++ resp.status ++ " ErrMsg:" ++ b ++ " ") b)) ∧
    (∃ msg, (Sync notFoundEnv searchBuilder).ret = .done (none, some msg) ∧
      containsText msg "not found") ∧
    (Sync demoEnv searchBuilder).ret = .done (some "ok", none) := by
  refine ⟨sync_status, ?_, rfl⟩
  exact ⟨_, rfl, "Sync() StatusCode:404 Not Found ErrMsg:", " ", by decide⟩

/-- Witness of C12: status 201 with an empty body on the builder of `Get("/search")`
is reported as an error. -/
theorem sync_classifies_by_status_witness :
    (Sync { demoEnv with
        send := fun _ _ => .ok { statusCode := 201, status := "201 Created", readAll := .ok "" } }
      searchBuilder).ret = .done (none, some "Sync() StatusCode:201 Created ErrMsg: ") :=
  ((sync_classifies_by_status.1
    { demoEnv with
      send := fun _ _ => .ok { statusCode := 201, status := "201 Created", readAll := .ok "" } }
    searchBuilder
    { scheme := "", host := "", path := "/search", rawQuery := "", fragment := "" }
    { statusCode := 201, status := "201 Created", readAll := .ok "" }
    "" rfl rfl rfl rfl rfl).2 (by decide)).1

/-- The background function of `Async` on a status other than 200 with a readable
body: the error callback is followed by the success callback. -/
theorem asyncTask_other_status (env : Env) (req : HttpRequest) (timeout : Nat)
    (resp : Response) (b : String) (hsend : env.send req timeout = .ok resp)
    (hread : resp.readAll = .ok b) (hs : resp.statusCode ≠ 200) :
    asyncTask env req timeout =
      [.send req timeout,
        .errCallback ("Async() StatusCode:" ++ resp.status ++ " ErrMsg:" ++ b ++ " "),
        .callback b] := by
  simp [asyncTask, hsend, hread, hs]

/-- C13 is broken by the code: on the error-free builder of `Get("/search")` and a
network answering 404 with the body `not found`, `Async` returns no error and its
background function makes one network call and then invokes both callbacks, the error
callback first and the success callback with the body after it. -/
theorem async_invokes_both_callbacks :
    searchBuilder.err = none ∧ (Async notFoundEnv searchBuilder).ret = .done none ∧
      (Async notFoundEnv searchBuilder).background =
        [.send { method := "GET", url := "/search", header := [], body := "" } 2000000000,
          .errCallback "Async() StatusCode:404 Not Found ErrMsg:not found ",
          .callback "not found"] := by
  decide

theorem run_absent (env : Env) (hc : httpClient) (c : Call) (h : c.isAbsent = true) :
    c.run env hc = .done hc := by
  cases c with
  | debug => simp [Call.isAbsent] at h
  | timeout d => simp [Call.isAbsent] at h
  | header v =>
    cases v <;> simp [Call.isAbsent, GoValue.isNil] at h
    cases he : hc.err <;> simp [Call.run, Header, he]
  | param v =>
    cases v <;> simp [Call.isAbsent, GoValue.isNil] at h
    cases he : hc.err <;> simp [Call.run, Param, he]
  | json v =>
    cases v <;> simp [Call.isAbsent, GoValue.isNil] at h
    cases he : hc.err <;> simp [Call.run, Json, he]
  | form v =>
    cases v <;> simp [Call.isAbsent, GoValue.isNil] at h
    cases he : hc.err <;> simp [Call.run, Form, he]
  | stream b =>
    cases b with
    | some b => simp [Call.isAbsent] at h
    | none => cases he : hc.err <;> simp [Call.run, Stream, he]
  | multipart m =>
    cases m with
    | some m => simp [Call.isAbsent] at h
    | none => cases he : hc.err <;> simp [Call.run, Multipart, he]

/-- C14, as stated, fails for empty arguments that are not nil: on the builder of
`Get("/search")`, `Stream` of a zero-length byte sequence and `Form` of an empty mapping
reset the body and add content headers, and on the builder of `Get("/search?x=1")`,
`Param` of an empty mapping erases the query. -/
theorem empty_argument_counterexample :
    Stream searchBuilder (some "") ≠ .done searchBuilder ∧
      Form searchBuilder (.map .string []) ≠ .done searchBuilder ∧
      Param queryBuilder (.map .string []) ≠ .done queryBuilder ∧
      Param queryBuilder (.map .string []) = .done searchBuilder := by
  decide

theorem header_empty_map (hc : httpClient) (hrc : 1 ≤ hc.recursionCount) :
    Header hc (.map .string []) = .done hc := by
  obtain ⟨n, hn⟩ : ∃ n, hc.recursionCount = n + 1 := ⟨hc.recursionCount - 1, by omega⟩
  cases he : hc.err with
  | some e => simp [Header, he]
  | none =>
    obtain ⟨url, method, header, body, err, timeout, rc, dbg⟩ := hc
    simp only at he hn
    subst he hn
    simp [Header, conv, forEach]

theorem setBody_ne (hc : httpClient) (b ct : String) : setBody hc b ct ≠ hc := by
  intro h
  have h1 := setBody_contentType hc b ct
  rw [h] at h1
  have h2 := congrArg List.length h1
  simp at h2

theorem setBody_empty (hc : httpClient) (ct : String) :
    (setBody hc "" ct).body = "" ∧
      Multimap.get (setBody hc "" ct).header contentType =
        Multimap.get hc.header contentType ++ [ct] ∧
      Multimap.get (setBody hc "" ct).header contentLength =
        Multimap.get hc.header contentLength ++ ["0"] :=
  ⟨rfl, setBody_contentType hc "" ct, setBody_contentLength hc "" ct⟩

theorem stream_some (hc : httpClient) (b : String) (he : hc.err = none) :
    Stream hc (some b) = .done (setBody hc b contentTypeStream) := by
  simp [Stream, he]

theorem form_empty_map (hc : httpClient) (he : hc.err = none) (hrc : 1 ≤ hc.recursionCount) :
    Form hc (.map .string []) = .done (setBody hc "" contentTypeForm) := by
  obtain ⟨n, hn⟩ : ∃ n, hc.recursionCount = n + 1 := ⟨hc.recursionCount - 1, by omega⟩
  have henc : Values.Encode [] = "" := by decide
  simp [Form, he, hn, conv, forEach, henc]

theorem param_empty_map (hc : httpClient) (u : URL) (he : hc.err = none)
    (hu : hc.url = some u) (hrc : 1 ≤ hc.recursionCount) :
    Param hc (.map .string []) = .done { hc with url := some { u with rawQuery := "" } } := by
  obtain ⟨n, hn⟩ : ∃ n, hc.recursionCount = n + 1 := ⟨hc.recursionCount - 1, by omega⟩
  have henc : Values.Encode [] = "" := by decide
  simp [Param, he, hu, hn, conv, forEach, henc]

theorem json_changes (env : Env) (hc : httpClient) (v : GoValue) (he : hc.err = none)
    (hv : v.isNil = false) : Json env hc v ≠ .done hc := by
  intro hrun
  unfold Json at hrun
  simp only [he, Option.isSome_none, Bool.false_eq_true, if_false] at hrun
  split at hrun
  · simp [GoValue.isNil] at hv
  · split at hrun
    · have h1 := congrArg httpClient.err (Run.done.inj hrun)
      simp [he] at h1
    · exact setBody_ne _ _ _ (Run.done.inj hrun)

theorem multipart_changes (env : Env) (hc : httpClient) (m : MultipartData)
    (he : hc.err = none) : Multipart env hc (some m) ≠ .done hc := by
  intro hrun
  unfold Multipart at hrun
  simp only [he, Option.isSome_none, Bool.false_eq_true, if_false] at hrun
  split at hrun
  · have h1 := congrArg httpClient.err (Run.done.inj hrun)
    simp [he] at h1
  · split at hrun
    · have h1 := congrArg httpClient.err (Run.done.inj hrun)
      simp [he] at h1
    · split at hrun
      · have h1 := congrArg httpClient.err (Run.done.inj hrun)
        simp [he] at h1
      · exact setBody_ne _ _ _ (Run.done.inj hrun)

/-- C14, amended. A nil argument is a no-op, an empty one is encoded: (1) for every
builder state, each of `Header`, `Param`, `Stream`, `Json`, `Form` and `Multipart`
called with Go's nil returns the builder with its whole state unchanged; (2) `Header`
of an empty string-keyed mapping leaves the whole state unchanged when the depth limit
is at least 1; (3) on an error-free builder, `Stream` of a zero-length byte sequence
and (4), with a depth limit of at least 1, `Form` of an empty string-keyed mapping set
the body to empty and append a `Content-Type` value and the `Content-Length` value `0`,
so the state changes; (5) on an error-free builder with a depth limit of at least 1,
`Param` of an empty string-keyed mapping sets the raw query to the empty string;
(6) on an error-free builder, `Json` of an empty mapping and `Multipart` of an empty
specification change the state. -/
theorem absent_argument_noop :
    (∀ (env : Env) (hc : httpClient) (c : Call), c.isAbsent = true →
      c.run env hc = .done hc) ∧
    (∀ hc : httpClient, 1 ≤ hc.recursionCount → Header hc (.map .string []) = .done hc) ∧
    (∀ hc : httpClient, hc.err = none →
      Stream hc (some "") = .done (setBody hc "" contentTypeStream) ∧
      Stream hc (some "") ≠ .done hc) ∧
    (∀ hc : httpClient, hc.err = none → 1 ≤ hc.recursionCount →
      Form hc (.map .string []) = .done (setBody hc "" contentTypeForm) ∧
      Form hc (.map .string []) ≠ .done hc) ∧
    (∀ (hc : httpClient) (ct : String),
      (setBody hc "" ct).body = "" ∧
      Multimap.get (setBody hc "" ct).header contentType =
        Multimap.get hc.header contentType ++ [ct] ∧
      Multimap.get (setBody hc "" ct).header contentLength =
        Multimap.get hc.header contentLength ++ ["0"]) ∧
    (∀ (hc : httpClient) (u : URL), hc.err = none → hc.url = some u →
      1 ≤ hc.recursionCount →
      Param hc (.map .string []) = .done { hc with url := some { u with rawQuery := "" } }) ∧
    (∀ (env : Env) (hc : httpClient), hc.err = none →
      Json env hc (.map .string []) ≠ .done hc) ∧
    ∀ (env : Env) (hc : httpClient), hc.err = none →
      Multipart env hc (some { Files := [], Form := [] }) ≠ .done hc := by
  refine ⟨run_absent, header_empty_map, ?_, ?_, setBody_empty, param_empty_map,
    fun env hc he => json_changes env hc _ he rfl,
    fun env hc he => multipart_changes env hc _ he⟩
  · intro hc he
    rw [stream_some hc "" he]
    exact ⟨rfl, fun h => setBody_ne _ _ _ (Run.done.inj h)⟩
  · intro hc he hrc
    rw [form_empty_map hc he hrc]
    exact ⟨rfl, fun h => setBody_ne _ _ _ (Run.done.inj h)⟩

/-- Witness of the amended C14: `Stream(nil)` on the builder of `Get("/search?x=1")`. -/
theorem absent_argument_noop_witness :
    Call.run demoEnv queryBuilder (.stream none) = .done queryBuilder :=
  absent_argument_noop.1 demoEnv queryBuilder (.stream none) rfl

/-! ## Flattening into the sinks of the builder (C19, C20) -/

/-- On any sink, `conv` adds the pairs it emits on the recording sink, in order, and
returns the same status. -/
theorem conv_eq_foldl {σ : Type} (add : σ → String → String → σ) (s : σ) (key : String)
    (v : GoValue) (n : Nat) :
    conv add s key v n =
      ((flatten key v n).1.foldl (fun a p => add a p.1 p.2) s, (flatten key v n).2) := by
  have h := conv_sim (fun (a : σ) (t : PairLog) => a = t.foldl (fun a p => add a p.1 p.2) s)
    add PairLog.add
    (fun a t k x hat => by
      simp only [PairLog.add, List.foldl_append, List.foldl_cons, List.foldl_nil]
      rw [hat]) n key v s [] rfl
  exact Prod.ext h.1 h.2

theorem foldl_log_add (l ps : PairLog) :
    ps.foldl (fun a p => PairLog.add a p.1 p.2) l = l ++ ps := by
  induction ps generalizing l with
  | nil => simp
  | cons p ps ih =>
    rw [List.foldl_cons, ih]
    simp [PairLog.add]

/-- On the recording sink, `conv` appends what it emits from an empty record. -/
theorem conv_log_append (l : PairLog) (key : String) (v : GoValue) (n : Nat) :
    conv PairLog.add l key v n = (l ++ (flatten key v n).1, (flatten key v n).2) := by
  rw [conv_eq_foldl, foldl_log_add]

theorem isNil_false_of_ok (key : String) (v : GoValue) (n : Nat)
    (h : (flatten key v n).2 = .ok) : v.isNil = false := by
  cases v <;> first | rfl | exact absurd h (flatten_nil_not_ok key n)

/-- The three outcomes of `Header` on an error-free builder and a non-nil argument. -/
theorem header_by_status (hc : httpClient) (v : GoValue) (he : hc.err = none)
    (hv : v.isNil = false) :
    Header hc v =
      match (flatten "" v hc.recursionCount).2 with
      | .ok => .done
          { hc with
            header := (flatten "" v hc.recursionCount).1.foldl
              (fun a p => Header.add a p.1 p.2) hc.header }
      | .error e => .done
          { hc with
            header := (flatten "" v hc.recursionCount).1.foldl
              (fun a p => Header.add a p.1 p.2) hc.header
            err := some ("Header() err:" ++ e ++ " ") }
      | .crash m => .crash m := by
  unfold Header
  simp only [he, Option.isSome_none, Bool.false_eq_true, if_false]
  split
  · simp [GoValue.isNil] at hv
  · rw [conv_eq_foldl]
    cases (flatten "" v hc.recursionCount).2 <;> rfl

/-- The outcomes of `Param` on an error-free builder and a non-nil argument. -/
theorem param_by_status (hc : httpClient) (v : GoValue) (he : hc.err = none)
    (hv : v.isNil = false) :
    Param hc v =
      match (flatten "" v hc.recursionCount).2 with
      | .ok =>
        match hc.url with
        | none => .crash panicNilDeref
        | some u => .done
          { hc with
            url := some { u with rawQuery := specQuery (flatten "" v hc.recursionCount).1 } }
      | .error e => .done { hc with err := some ("Param() err:" ++ e ++ " ") }
      | .crash m => .crash m := by
  unfold Param
  simp only [he, Option.isSome_none, Bool.false_eq_true, if_false]
  split
  · simp [GoValue.isNil] at hv
  · rw [conv_values_eq]
    cases (flatten "" v hc.recursionCount).2 <;> simp [encode_foldl_add]

/-- The three outcomes of `Form` on an error-free builder and a non-nil argument. -/
theorem form_by_status (hc : httpClient) (v : GoValue) (he : hc.err = none)
    (hv : v.isNil = false) :
    Form hc v =
      match (flatten "" v hc.recursionCount).2 with
      | .ok => .done
          (setBody hc (specQuery (flatten "" v hc.recursionCount).1) contentTypeForm)
      | .error e => .done { hc with err := some ("Form() err:" ++ e ++ " ") }
      | .crash m => .crash m := by
  unfold Form
  simp only [he, Option.isSome_none, Bool.false_eq_true, if_false]
  split
  · simp [GoValue.isNil] at hv
  · rw [conv_values_eq]
    cases (flatten "" v hc.recursionCount).2 <;> simp [encode_foldl_add]

theorem defReq_header_of_ok (env : Env) (method url : String) (args : List GoValue) :
    (DefReq env method url args).header = [] := by
  unfold DefReq
  split <;> rfl

/-- C19, as stated, fails for `Header`: on the builder of `Get("/search")`, `Header` of a
struct whose first field is a number and whose second field is a map with a non-string
key type sets the sticky error and leaves the pair of the first field in the header
multimap, which was empty before the call. -/
theorem failing_header_counterexample :
    ∃ h1, Header searchBuilder numberThenIntMap = .done h1 ∧ h1.err ≠ none ∧
      searchBuilder.header = [] ∧ h1.header = [("A", ["1"])] := by
  exact ⟨_, rfl, by decide, rfl, by decide⟩

theorem json_failed (env : Env) (hc h1 : httpClient) (v : GoValue) (he : hc.err = none)
    (hrun : Json env hc v = .done h1) (hfail : h1.err ≠ none) :
    h1 = { hc with err := h1.err } := by
  unfold Json at hrun
  simp only [he, Option.isSome_none, Bool.false_eq_true, if_false] at hrun
  split at hrun
  · have := (Run.done.inj hrun).symm
    subst this
    exact absurd he hfail
  · split at hrun
    · have := (Run.done.inj hrun).symm
      subst this
      rfl
    · have := (Run.done.inj hrun).symm
      subst this
      exact absurd he hfail

/-- C19, amended. A failing `Param`, `Json` or `Form` changes nothing but the sticky
error, and a failing `Header` changes nothing but the sticky error and the header
multimap: after a call of one of the four on an error-free builder that sets the
error, method, URL and query, body, timeout, depth limit and debug flag are as before;
the header multimap is as before for `Param`, `Json` and `Form`, and for `Header` it
holds in addition the pairs emitted before the failure point. -/
theorem failing_call_frame (env : Env) (hc h1 : httpClient) (c : Call)
    (he : hc.err = none) (hc4 : c.takesValue = true) (hrun : c.run env hc = .done h1)
    (hfail : h1.err ≠ none) :
    h1 =
      { hc with
        err := h1.err
        header :=
          match c with
          | .header v => (flatten "" v hc.recursionCount).1.foldl
              (fun a p => Header.add a p.1 p.2) hc.header
          | _ => hc.header } := by
  cases c with
  | debug => simp [Call.takesValue] at hc4
  | timeout d => simp [Call.takesValue] at hc4
  | stream b => simp [Call.takesValue] at hc4
  | multipart m => simp [Call.takesValue] at hc4
  | json v => exact json_failed env hc h1 v he hrun hfail
  | header v =>
    simp only [Call.run] at hrun
    by_cases hv : v.isNil = true
    · have h2 := run_absent env hc (.header v) (by simpa [Call.isAbsent] using hv)
      simp only [Call.run] at h2
      rw [h2] at hrun
      have := (Run.done.inj hrun).symm
      subst this
      exact absurd he hfail
    · rw [header_by_status hc v he (by simpa using hv)] at hrun
      cases hst : (flatten "" v hc.recursionCount).2 with
      | ok =>
        rw [hst] at hrun
        have := (Run.done.inj hrun).symm
        subst this
        exact absurd he hfail
      | error e =>
        rw [hst] at hrun
        have := (Run.done.inj hrun).symm
        subst this
        rfl
      | crash m =>
        rw [hst] at hrun
        cases hrun
  | param v =>
    simp only [Call.run] at hrun
    by_cases hv : v.isNil = true
    · have h2 := run_absent env hc (.param v) (by simpa [Call.isAbsent] using hv)
      simp only [Call.run] at h2
      rw [h2] at hrun
      have := (Run.done.inj hrun).symm
      subst this
      exact absurd he hfail
    · rw [param_by_status hc v he (by simpa using hv)] at hrun
      cases hst : (flatten "" v hc.recursionCount).2 with
      | ok =>
        rw [hst] at hrun
        cases hu : hc.url with
        | none => rw [hu] at hrun; cases hrun
        | some u =>
          rw [hu] at hrun
          have := (Run.done.inj hrun).symm
          subst this
          exact absurd he hfail
      | error e =>
        rw [hst] at hrun
        have := (Run.done.inj hrun).symm
        subst this
        rfl
      | crash m =>
        rw [hst] at hrun
        cases hrun
  | form v =>
    simp only [Call.run] at hrun
    by_cases hv : v.isNil = true
    · have h2 := run_absent env hc (.form v) (by simpa [Call.isAbsent] using hv)
      simp only [Call.run] at h2
      rw [h2] at hrun
      have := (Run.done.inj hrun).symm
      subst this
      exact absurd he hfail
    · rw [form_by_status hc v he (by simpa using hv)] at hrun
      cases hst : (flatten "" v hc.recursionCount).2 with
      | ok =>
        rw [hst] at hrun
        have := (Run.done.inj hrun).symm
        subst this
        exact absurd (by rw [setBody_err, he]) hfail
      | error e =>
        rw [hst] at hrun
        have := (Run.done.inj hrun).symm
        subst this
        rfl
      | crash m =>
        rw [hst] at hrun
        cases hrun

/-- Witness of the amended C19: `Param` of a slice (rejected under the empty key) on
the builder of `Get("/search?x=1")` sets the error and keeps the query `x=1`. -/
theorem failing_call_frame_witness :
    Call.run demoEnv queryBuilder (.param (.seq [.other "1"])) =
        .done { queryBuilder with err := some ("Param() err:" ++ errSeq ++ " ") } ∧
      ({ queryBuilder with
          err := some ("Param() err:" ++ errSeq ++ " ") } : httpClient) =
        { queryBuilder with
          err := some ("Param() err:" ++ errSeq ++ " ")
          header := queryBuilder.header } :=
  ⟨rfl, failing_call_frame demoEnv queryBuilder
    { queryBuilder with err := some ("Param() err:" ++ errSeq ++ " ") }
    (.param (.seq [.other "1"])) rfl rfl rfl (by decide)⟩

/-- Adding pairs to an `http.Header` in order: the values under a key are the values
already there followed by the values of the added pairs whose canonical key it is, in
order. -/
theorem get_foldl_header_add (l : List (String × String)) (m : Multimap) (k : String) :
    Multimap.get (l.foldl (fun a p => Header.add a p.1 p.2) m) k =
      Multimap.get m k ++
        (l.filter (fun p => decide (canonicalMIMEHeaderKey p.1 = k))).map Prod.snd := by
  induction l generalizing m with
  | nil => simp
  | cons p l ih =>
    rw [List.foldl_cons, ih]
    simp only [Header.add, get_append]
    by_cases h : canonicalMIMEHeaderKey p.1 = k <;> simp [h, List.filter_cons]

/-- C20. `Param` replaces the query and `Header` accumulates: on an error-free builder
and two values whose flattening succeeds, `Param` of the first then `Param` of the
second leaves exactly the builder that `Param` of the second alone leaves, whose raw
query is the encoding of the pairs of the second value only (nothing of the first
value or of the query of the URL template remains); `Header` of the first then
`Header` of the second sets no error and leaves the header multimap obtained by adding,
to the headers held before, the pairs of the first value and then the pairs of the
second, in order: under every key the multimap holds the values it held before,
followed by the values of the pairs of the first value with that (canonical) key,
followed by those of the second value. -/
theorem param_replaces_header_accumulates (hc : httpClient) (u : URL) (v1 v2 : GoValue)
    (he : hc.err = none) (hu : hc.url = some u)
    (hv1 : (flatten "" v1 hc.recursionCount).2 = .ok)
    (hv2 : (flatten "" v2 hc.recursionCount).2 = .ok) :
    (∃ p1 p2, Param hc v1 = .done p1 ∧ Param p1 v2 = .done p2 ∧ Param hc v2 = .done p2 ∧
        p2.url = some { u with rawQuery := specQuery (flatten "" v2 hc.recursionCount).1 }) ∧
      ∃ h1 h2, Header hc v1 = .done h1 ∧ Header h1 v2 = .done h2 ∧ h2.err = none ∧
        h2.header =
          ((flatten "" v1 hc.recursionCount).1 ++ (flatten "" v2 hc.recursionCount).1).foldl
            (fun a p => Header.add a p.1 p.2) hc.header ∧
        ∀ k : String, Multimap.get h2.header k =
          Multimap.get hc.header k ++
            (((flatten "" v1 hc.recursionCount).1.filter
              (fun p => decide (canonicalMIMEHeaderKey p.1 = k))).map Prod.snd ++
            ((flatten "" v2 hc.recursionCount).1.filter
              (fun p => decide (canonicalMIMEHeaderKey p.1 = k))).map Prod.snd) := by
  have n1 := isNil_false_of_ok _ _ _ hv1
  have n2 := isNil_false_of_ok _ _ _ hv2
  constructor
  · have hp1 := param_ok hc u v1 he hu hv1
    have hp2 := param_ok hc u v2 he hu hv2
    refine ⟨_, _, hp1, ?_, hp2, rfl⟩
    exact param_ok
      { hc with
        url := some { u with rawQuery := specQuery (flatten "" v1 hc.recursionCount).1 } }
      { u with rawQuery := specQuery (flatten "" v1 hc.recursionCount).1 } v2 he rfl hv2
  · have hh1 := header_by_status hc v1 he n1
    rw [hv1] at hh1
    simp only at hh1
    have hh2 := header_by_status
      { hc with
        header := (flatten "" v1 hc.recursionCount).1.foldl
          (fun a p => Header.add a p.1 p.2) hc.header } v2 he n2
    simp only [hv2] at hh2
    refine ⟨_, _, hh1, hh2, he, by simp only [List.foldl_append], fun k => ?_⟩
    simp only [get_foldl_header_add, List.append_assoc]

/-- Witness of C20: `Header` and `Param` of the mappings `a: 1` and `a: 1, b: [1, 2]` on
the builder of `Get("/search?x=1")`: the query ends as `a=1&b%5B0%5D=1&b%5B1%5D=2`,
the header `A` holds `1` twice and the headers `b[0]` and `b[1]` one value each. -/
theorem param_replaces_header_accumulates_witness :
    (∃ p1 p2, Param queryBuilder mapA1 = .done p1 ∧ Param p1 mapAB = .done p2 ∧
        Param queryBuilder mapAB = .done p2 ∧
        p2.url = some { scheme := "", host := "", path := "/search",
                        rawQuery := "a=1&b%5B0%5D=1&b%5B1%5D=2", fragment := "" }) ∧
      ∃ h1 h2, Header queryBuilder mapA1 = .done h1 ∧ Header h1 mapAB = .done h2 ∧
        h2.err = none ∧ h2.header = [("A", ["1", "1"]), ("b[0]", ["1"]), ("b[1]", ["2"])] ∧
        Multimap.get h2.header "A" = ["1", "1"] ∧ Multimap.get h2.header "b[0]" = ["1"] ∧
        Multimap.get h2.header "b[1]" = ["2"] := by
  obtain ⟨⟨p1, p2, hp1, hp12, hp2, hurl⟩, h1, h2, hh1, hh2, herr, hfold, hget⟩ :=
    param_replaces_header_accumulates queryBuilder
      { scheme := "", host := "", path := "/search", rawQuery := "x=1", fragment := "" }
      mapA1 mapAB rfl rfl (by decide) (by decide)
  exact ⟨⟨p1, p2, hp1, hp12, hp2, hurl.trans (by decide)⟩, h1, h2, hh1, hh2, herr,
    hfold.trans (by decide), (hget "A").trans (by decide), (hget "b[0]").trans (by decide),
    (hget "b[1]").trans (by decide)⟩

/-! ## Emitted pairs: records, leaves and map order (C11, C15, C16) -/

/-- A loop on the recording sink whose body appends `g x` and returns `st x`: when
every element returns `ok`, the loop appends everything in order and returns `ok`. -/
theorem forEach_log_ok {α : Type} (f : PairLog → α → PairLog × Status) (g : α → PairLog)
    (st : α → Status) (hf : ∀ l x, f l x = (l ++ g x, st x)) (xs : List α) :
    ∀ l, (∀ x ∈ xs, st x = .ok) → forEach f l xs = (l ++ xs.flatMap g, .ok) := by
  induction xs with
  | nil => intro l _; simp [forEach]
  | cons x xs ih =>
    intro l h
    have hx : st x = .ok := h x (List.mem_cons_self x xs)
    unfold forEach
    rw [hf, hx]
    simp only
    rw [ih _ (fun y hy => h y (List.mem_cons_of_mem x hy))]
    simp

/-- A loop on the recording sink that returns `ok` ran every element with `ok`. -/
theorem forEach_log_all_ok {α : Type} (f : PairLog → α → PairLog × Status)
    (g : α → PairLog) (st : α → Status) (hf : ∀ l x, f l x = (l ++ g x, st x))
    (xs : List α) : ∀ l, (forEach f l xs).2 = .ok → ∀ x ∈ xs, st x = .ok := by
  induction xs with
  | nil => intro l _ x hx; cases hx
  | cons x xs ih =>
    intro l h y hy
    unfold forEach at h
    rw [hf] at h
    cases hx : st x with
    | ok =>
      rw [hx] at h
      simp only at h
      rcases List.mem_cons.mp hy with rfl | hy1
      · exact hx
      · exact ih _ h y hy1
    | error e => rw [hx] at h; simp at h
    | crash m => rw [hx] at h; simp at h

/-- Flattening of a struct, field by field. -/
theorem flatten_struct (key : String) (fs : List (Field × GoValue)) (n : Nat) :
    ((flatten key (.struct fs) (n + 1)).2 = .ok ↔
        ∀ e ∈ fs, e.1.exported = true ∧
          (flatten (dotJoin key ++ fieldKey e.1) e.2 n).2 = .ok) ∧
      ((flatten key (.struct fs) (n + 1)).2 = .ok →
        (flatten key (.struct fs) (n + 1)).1 =
          fs.flatMap (fun e => (flatten (dotJoin key ++ fieldKey e.1) e.2 n).1)) := by
  have hf : ∀ (l : PairLog) (e : Field × GoValue),
      (if e.1.exported then conv PairLog.add l (dotJoin key ++ fieldKey e.1) e.2 n
        else (l, Status.crash panicUnexported)) =
      (l ++ (if e.1.exported then (flatten (dotJoin key ++ fieldKey e.1) e.2 n).1 else []),
        if e.1.exported then (flatten (dotJoin key ++ fieldKey e.1) e.2 n).2
        else Status.crash panicUnexported) := by
    intro l e
    by_cases hx : e.1.exported = true
    · simp only [hx, if_true]
      exact conv_log_append l _ e.2 n
    · simp [hx]
  have hall : (flatten key (.struct fs) (n + 1)).2 = .ok →
      ∀ e ∈ fs, e.1.exported = true ∧
        (flatten (dotJoin key ++ fieldKey e.1) e.2 n).2 = .ok := by
    intro h e he
    have h1 := forEach_log_all_ok _ _ _ hf fs [] (by simpa [flatten, conv] using h) e he
    by_cases hx : e.1.exported = true
    · simp only [hx, if_true] at h1
      exact ⟨hx, h1⟩
    · simp [hx] at h1
  have hrun : (∀ e ∈ fs, e.1.exported = true ∧
        (flatten (dotJoin key ++ fieldKey e.1) e.2 n).2 = .ok) →
      flatten key (.struct fs) (n + 1) =
        (fs.flatMap (fun e => (flatten (dotJoin key ++ fieldKey e.1) e.2 n).1), .ok) := by
    intro h
    have h1 := forEach_log_ok _ _ _ hf fs []
      (fun e he => by simp only [(h e he).1, if_true]; exact (h e he).2)
    simp only [flatten, conv]
    rw [h1]
    simp only [List.nil_append, Prod.mk.injEq, and_true]
    apply List.flatMap_congr
    intro e he
    simp only [(h e he).1, if_true]
    rfl
  refine ⟨⟨hall, fun h => by rw [hrun h]⟩, fun h => by rw [hrun (hall h)]⟩

/-- Flattening of a string-keyed map, entry by entry in iteration order. -/
theorem flatten_map (key : String) (es : List (String × GoValue)) (n : Nat) :
    ((flatten key (.map .string es) (n + 1)).2 = .ok ↔
        ∀ e ∈ es, (flatten (dotJoin key ++ e.1) e.2 n).2 = .ok) ∧
      ((flatten key (.map .string es) (n + 1)).2 = .ok →
        (flatten key (.map .string es) (n + 1)).1 =
          es.flatMap (fun e => (flatten (dotJoin key ++ e.1) e.2 n).1)) := by
  have hf : ∀ (l : PairLog) (e : String × GoValue),
      conv PairLog.add l (dotJoin key ++ e.1) e.2 n =
      (l ++ (flatten (dotJoin key ++ e.1) e.2 n).1, (flatten (dotJoin key ++ e.1) e.2 n).2) :=
    fun l e => conv_log_append l _ e.2 n
  have hall : (flatten key (.map .string es) (n + 1)).2 = .ok →
      ∀ e ∈ es, (flatten (dotJoin key ++ e.1) e.2 n).2 = .ok := by
    intro h
    exact forEach_log_all_ok _ _ _ hf es [] (by simpa [flatten, conv] using h)
  have hrun : (∀ e ∈ es, (flatten (dotJoin key ++ e.1) e.2 n).2 = .ok) →
      flatten key (.map .string es) (n + 1) =
        (es.flatMap (fun e => (flatten (dotJoin key ++ e.1) e.2 n).1), .ok) := by
    intro h
    have h1 := forEach_log_ok _ _ _ hf es [] h
    simp only [flatten, conv]
    rw [h1]
    rfl
  refine ⟨⟨hall, fun h => by rw [hrun h]⟩, fun h => by rw [hrun (hall h)]⟩

/-- Flattening of a slice or array under a non-empty key, element by element. -/
theorem flatten_seq (key : String) (hk : key ≠ "") (xs : List GoValue) (n : Nat) :
    ((flatten key (.seq xs) (n + 1)).2 = .ok ↔
        ∀ p ∈ xs.enum, (flatten (indexKey key p.1) p.2 n).2 = .ok) ∧
      ((flatten key (.seq xs) (n + 1)).2 = .ok →
        (flatten key (.seq xs) (n + 1)).1 =
          xs.enum.flatMap (fun p => (flatten (indexKey key p.1) p.2 n).1)) := by
  have hf : ∀ (l : PairLog) (p : Nat × GoValue),
      conv PairLog.add l (indexKey key p.1) p.2 n =
      (l ++ (flatten (indexKey key p.1) p.2 n).1, (flatten (indexKey key p.1) p.2 n).2) :=
    fun l p => conv_log_append l _ p.2 n
  have hall : (flatten key (.seq xs) (n + 1)).2 = .ok →
      ∀ p ∈ xs.enum, (flatten (indexKey key p.1) p.2 n).2 = .ok := by
    intro h
    exact forEach_log_all_ok _ _ _ hf xs.enum [] (by simpa [flatten, conv, hk] using h)
  have hrun : (∀ p ∈ xs.enum, (flatten (indexKey key p.1) p.2 n).2 = .ok) →
      flatten key (.seq xs) (n + 1) =
        (xs.enum.flatMap (fun p => (flatten (indexKey key p.1) p.2 n).1), .ok) := by
    intro h
    have h1 := forEach_log_ok _ _ _ hf xs.enum [] h
    simp only [flatten, conv, hk, if_false]
    rw [h1]
    rfl
  refine ⟨⟨hall, fun h => by rw [hrun h]⟩, fun h => by rw [hrun (hall h)]⟩

theorem flatten_seq_empty_key (xs : List GoValue) (n : Nat) :
    (flatten "" (.seq xs) n).2 ≠ .ok := by
  cases n <;> simp [flatten, conv]

theorem flatten_zero (key : String) (v : GoValue) : (flatten key v 0).2 ≠ .ok := by
  simp [flatten, conv]

/-- C15. Record flattening keeps declared field order and names: when `conv` succeeds
on a struct under `key` with counter `c`, every field is flattened with success under
the key `key` joined by a dot (no separator when `key` is empty) with the name of the
field, and the emitted pairs are the pairs of the first field, then those of the
second, and so on in declared order; the name of a field is its `json` tag up to the
first comma when the tag is non-empty and its declared name otherwise. -/
theorem struct_fields_in_order (key : String) (fs : List (Field × GoValue)) (c : Nat)
    (h : (flatten key (.struct fs) c).2 = .ok) :
    (flatten key (.struct fs) c).1 =
        fs.flatMap (fun e => (flatten (dotJoin key ++ fieldKey e.1) e.2 (c - 1)).1) ∧
      (∀ e ∈ fs, (flatten (dotJoin key ++ fieldKey e.1) e.2 (c - 1)).2 = .ok) ∧
      dotJoin "" = "" ∧ (key ≠ "" → dotJoin key = key ++ ".") ∧
      (∀ f : Field, f.jsonTag = "" → fieldKey f = f.name) ∧
      ∀ f : Field, f.jsonTag ≠ "" →
        fieldKey f = String.mk (f.jsonTag.toList.takeWhile (fun ch => ch != ',')) := by
  cases c with
  | zero => exact absurd h (flatten_zero key _)
  | succ n =>
    have hs := flatten_struct key fs n
    refine ⟨hs.2 h, fun e he => ((hs.1.mp h) e he).2, rfl, fun hk => by simp [dotJoin, hk],
      fun f hf => by simp [fieldKey, hf], fun f hf => by simp [fieldKey, hf]⟩

/-- Witness of C15: the record `User` of the tests under the key `d`, and a field with
the tag `name,omitempty`. -/
theorem struct_fields_in_order_witness :
    (flatten "d" testUser 15).1 = [("d.Name", "大黄"), ("d.Age", "18")] ∧
      fieldKey ⟨"Name", "name,omitempty", true⟩ = "name" :=
  ⟨((struct_fields_in_order "d" [(⟨"Name", "", true⟩, .str "大黄"),
      (⟨"Age", "", true⟩, .other "18")] 15 (by decide)).1).trans (by decide), by decide⟩

theorem leavesSeq_eq (key : String) (xs : List GoValue) (i : Nat) :
    leaves.leavesSeq key i xs =
      (xs.enumFrom i).flatMap (fun p => leaves (indexKey key p.1) p.2) := by
  induction xs generalizing i with
  | nil => rfl
  | cons x xs ih => simp [leaves.leavesSeq, List.enumFrom, ih]

theorem leavesEntries_eq (pre : String) (es : List (String × GoValue)) :
    leaves.leavesEntries pre es = es.flatMap (fun e => leaves (pre ++ e.1) e.2) := by
  induction es with
  | nil => rfl
  | cons e es ih => simp [leaves.leavesEntries, ih]

theorem leavesFields_eq (pre : String) (fs : List (Field × GoValue)) :
    leaves.leavesFields pre fs = fs.flatMap (fun e => leaves (pre ++ fieldKey e.1) e.2) := by
  induction fs with
  | nil => rfl
  | cons e es ih => simp [leaves.leavesFields, ih]

/-- A successful flattening emits exactly the leaves of the value, in traversal order. -/
theorem flatten_eq_leaves (n : Nat) :
    ∀ (key : String) (v : GoValue), (flatten key v n).2 = .ok →
      (flatten key v n).1 = leaves key v := by
  induction n with
  | zero => intro key v h; exact absurd h (flatten_zero key v)
  | succ n ih =>
    intro key v h
    cases v with
    | nil => simp [flatten, conv] at h
    | nilPtr => simp [flatten, conv] at h
    | namedStr x =>
      by_cases hk : key = "" <;> simp [flatten, conv, hk] at h
    | namedBytes x =>
      by_cases hk : key = "" <;> simp [flatten, conv, hk] at h
    | str x =>
      by_cases hk : key = ""
      · simp [flatten, conv, hk] at h
      · simp [flatten, conv, hk, leaves, PairLog.add]
    | bytes x =>
      by_cases hk : key = ""
      · simp [flatten, conv, hk] at h
      · simp [flatten, conv, hk, leaves, PairLog.add]
    | other r => simp [flatten, conv, leaves, PairLog.add]
    | ptr t =>
      have h1 : flatten key (.ptr t) (n + 1) = flatten key t n := by
        simp only [flatten, conv]
      rw [h1] at h ⊢
      rw [ih key t h]
      simp [leaves]
    | seq xs =>
      by_cases hk : key = ""
      · subst hk
        exact absurd h (flatten_seq_empty_key xs _)
      · have hs := flatten_seq key hk xs n
        rw [hs.2 h]
        simp only [leaves, leavesSeq_eq, List.enum]
        apply List.flatMap_congr
        intro p hp
        exact ih _ p.2 (hs.1.mp h p hp)
    | map kk es =>
      cases kk with
      | other => simp [flatten, conv] at h
      | namedString =>
        cases es with
        | nil => simp [flatten, conv, forEach, leaves]
        | cons e es => simp [flatten, conv, forEach] at h
      | string =>
        have hs := flatten_map key es n
        rw [hs.2 h]
        simp only [leaves, leavesEntries_eq]
        apply List.flatMap_congr
        intro e he
        exact ih _ e.2 (hs.1.mp h e he)
    | struct fs =>
      have hs := flatten_struct key fs n
      rw [hs.2 h]
      simp only [leaves, leavesFields_eq]
      apply List.flatMap_congr
      intro e he
      exact ih _ e.2 ((hs.1.mp h) e he).2

theorem lookup_of_nodup_keys (l : List (String × String))
    (hl : (l.map Prod.fst).Nodup) : ∀ p ∈ l, l.lookup p.1 = some p.2 := by
  induction l with
  | nil => intro p hp; cases hp
  | cons q t ih =>
    intro p hp
    obtain ⟨k, x⟩ := q
    simp only [List.map_cons, List.nodup_cons] at hl
    rcases List.mem_cons.mp hp with rfl | hp1
    · simp [List.lookup]
    · have hne : ¬ p.1 = k := by
        intro hpk
        apply hl.1
        rw [← hpk]
        exact List.mem_map_of_mem Prod.fst hp1
      have hbeq : (p.1 == k) = false := by simpa using hne
      simp only [List.lookup, hbeq]
      exact ih hl.2 p hp1

/-- C11, as stated, fails: the mapping `{"a.b": 1, "a": {"b": 2}}` is flattened with
success into two pairs, one per leaf, that carry the same key `a.b`; looking the key up
in the emitted pairs gives the first leaf only. -/
theorem flatten_lossless_counterexample :
    flatten "" collideAB 16 = ([("a.b", "1"), ("a.b", "2")], .ok) ∧
      leaves "" collideAB = [("a.b", "1"), ("a.b", "2")] ∧
      (flatten "" collideAB 16).1.lookup "a.b" = some "1" ∧
      (flatten "" collideAB 16).1.lookup "a.b" ≠ some "2" := by
  decide

/-- C11, amended. Flattening is lossless on leaves whose keys are distinct: when `conv`
succeeds on a value, the emitted pairs are exactly one pair per scalar leaf, in
traversal order, each carrying the string form of the leaf under the key built from its
path; when the keys of the leaves are pairwise distinct, looking up the key of a leaf
in the emitted pairs recovers the string form of that leaf. -/
theorem flatten_lossless (key : String) (v : GoValue) (n : Nat)
    (h : (flatten key v n).2 = .ok) :
    (flatten key v n).1 = leaves key v ∧
      (((leaves key v).map Prod.fst).Nodup →
        ∀ p ∈ leaves key v, (flatten key v n).1.lookup p.1 = some p.2) := by
  have h1 := flatten_eq_leaves n key v h
  refine ⟨h1, fun hnd p hp => ?_⟩
  rw [h1]
  exact lookup_of_nodup_keys _ hnd p hp

/-- Witness of the amended C11: the mapping of `Test_GetParam`. -/
theorem flatten_lossless_witness :
    (flatten "" testParam 16).1 = leaves "" testParam ∧
      (((leaves "" testParam).map Prod.fst).Nodup →
        ∀ p ∈ leaves "" testParam, (flatten "" testParam 16).1.lookup p.1 = some p.2) :=
  flatten_lossless "" testParam 16 (by decide)

theorem filter_key_of_nodup (l : List (String × String)) (hl : (l.map Prod.fst).Nodup)
    (k : String) : (l.filter (fun q => decide (q.1 = k))).length ≤ 1 := by
  induction l with
  | nil => simp
  | cons q t ih =>
    simp only [List.map_cons, List.nodup_cons] at hl
    by_cases hq : q.1 = k
    · have hnone : t.filter (fun x => decide (x.1 = k)) = [] := by
        rw [List.filter_eq_nil_iff]
        intro x hx hxk
        apply hl.1
        have hxk1 : x.1 = k := by simpa using hxk
        rw [hq, ← hxk1]
        exact List.mem_map_of_mem Prod.fst hx
      simp [List.filter_cons, hq, hnone]
    · simpa [List.filter_cons, hq] using ih hl.2

theorem eq_of_perm_of_length_le_one {α : Type} (l1 l2 : List α) (hp : l1.Perm l2)
    (hlen : l1.length ≤ 1) : l1 = l2 := by
  match l1, hlen, hp with
  | [], _, hp => exact hp.nil_eq
  | [a], _, hp => exact List.singleton_perm.mp hp

/-- Two lists of pairs with the same pairs in another order and pairwise distinct keys
are encoded into the same query string. -/
theorem specQuery_perm (l1 l2 : List (String × String)) (hp : l1.Perm l2)
    (hl : (l1.map Prod.fst).Nodup) : specQuery l1 = specQuery l2 := by
  unfold specQuery
  congr 2
  apply sorted_eq_of_filter_eq _ _ (List.sorted_insertionSort pairLE l1)
    (List.sorted_insertionSort pairLE l2)
  intro k
  rw [filter_insertionSort, filter_insertionSort]
  exact eq_of_perm_of_length_le_one _ _ (hp.filter _) (filter_key_of_nodup l1 hl k)

theorem reordered_collide : Reordered collideAB collideBA :=
  Reordered.map
    (ReorderedEntries.cons (Reordered.same _)
      (ReorderedEntries.cons (Reordered.same _) ReorderedEntries.nil))
    (List.Perm.swap _ _ _)

theorem reordered_list_step (n : Nat) (key : String)
    (ih : ∀ (k : String) (v w : GoValue), Reordered v w →
      ((flatten k v n).2 = .ok ↔ (flatten k w n).2 = .ok) ∧
        ((flatten k v n).2 = .ok → (flatten k v n).1.Perm (flatten k w n).1)) :
    ∀ (xs ys : List GoValue) (i : Nat), ReorderedList xs ys →
      ((∀ p ∈ xs.enumFrom i, (flatten (indexKey key p.1) p.2 n).2 = .ok) ↔
        ∀ p ∈ ys.enumFrom i, (flatten (indexKey key p.1) p.2 n).2 = .ok) ∧
      ((∀ p ∈ xs.enumFrom i, (flatten (indexKey key p.1) p.2 n).2 = .ok) →
        ((xs.enumFrom i).flatMap (fun p => (flatten (indexKey key p.1) p.2 n).1)).Perm
          ((ys.enumFrom i).flatMap (fun p => (flatten (indexKey key p.1) p.2 n).1))) := by
  intro xs
  induction xs with
  | nil =>
    intro ys i hR
    cases hR
    simp
  | cons x xs ihl =>
    intro ys i hR
    cases hR with
    | cons hxy hrest =>
      obtain ⟨h1, h2⟩ := ih (indexKey key i) _ _ hxy
      obtain ⟨h3, h4⟩ := ihl _ (i + 1) hrest
      simp only [List.enumFrom, List.forall_mem_cons, List.flatMap_cons]
      refine ⟨by rw [h1, h3], fun h => ?_⟩
      exact List.Perm.append (h2 h.1) (h4 h.2)

theorem reordered_entries_step (n : Nat) (pre : String)
    (ih : ∀ (k : String) (v w : GoValue), Reordered v w →
      ((flatten k v n).2 = .ok ↔ (flatten k w n).2 = .ok) ∧
        ((flatten k v n).2 = .ok → (flatten k v n).1.Perm (flatten k w n).1)) :
    ∀ (es fs : List (String × GoValue)), ReorderedEntries es fs →
      ((∀ e ∈ es, (flatten (pre ++ e.1) e.2 n).2 = .ok) ↔
        ∀ e ∈ fs, (flatten (pre ++ e.1) e.2 n).2 = .ok) ∧
      ((∀ e ∈ es, (flatten (pre ++ e.1) e.2 n).2 = .ok) →
        (es.flatMap (fun e => (flatten (pre ++ e.1) e.2 n).1)).Perm
          (fs.flatMap (fun e => (flatten (pre ++ e.1) e.2 n).1))) := by
  intro es
  induction es with
  | nil =>
    intro fs hR
    cases hR
    simp
  | cons e es ihl =>
    intro fs hR
    cases hR with
    | cons hxy hrest =>
      obtain ⟨h1, h2⟩ := ih (pre ++ _) _ _ hxy
      obtain ⟨h3, h4⟩ := ihl _ hrest
      simp only [List.forall_mem_cons, List.flatMap_cons]
      refine ⟨by rw [h1, h3], fun h => ?_⟩
      exact List.Perm.append (h2 h.1) (h4 h.2)

theorem reordered_fields_step (n : Nat) (pre : String)
    (ih : ∀ (k : String) (v w : GoValue), Reordered v w →
      ((flatten k v n).2 = .ok ↔ (flatten k w n).2 = .ok) ∧
        ((flatten k v n).2 = .ok → (flatten k v n).1.Perm (flatten k w n).1)) :
    ∀ (es fs : List (Field × GoValue)), ReorderedFields es fs →
      ((∀ e ∈ es, e.1.exported = true ∧ (flatten (pre ++ fieldKey e.1) e.2 n).2 = .ok) ↔
        ∀ e ∈ fs, e.1.exported = true ∧ (flatten (pre ++ fieldKey e.1) e.2 n).2 = .ok) ∧
      ((∀ e ∈ es, e.1.exported = true ∧ (flatten (pre ++ fieldKey e.1) e.2 n).2 = .ok) →
        (es.flatMap (fun e => (flatten (pre ++ fieldKey e.1) e.2 n).1)).Perm
          (fs.flatMap (fun e => (flatten (pre ++ fieldKey e.1) e.2 n).1))) := by
  intro es
  induction es with
  | nil =>
    intro fs hR
    cases hR
    simp
  | cons e es ihl =>
    intro fs hR
    cases hR with
    | cons hxy hrest =>
      obtain ⟨h1, h2⟩ := ih (pre ++ fieldKey _) _ _ hxy
      obtain ⟨h3, h4⟩ := ihl _ hrest
      simp only [List.forall_mem_cons, List.flatMap_cons]
      refine ⟨by rw [h1, h3], fun h => ?_⟩
      exact List.Perm.append (h2 h.1.2) (h4 h.2)

/-- Reordering the entries of string-keyed maps changes neither the success of the
flattening nor, up to order, the pairs emitted. -/
theorem reordered_flatten (n : Nat) :
    ∀ (key : String) (v w : GoValue), Reordered v w →
      ((flatten key v n).2 = .ok ↔ (flatten key w n).2 = .ok) ∧
        ((flatten key v n).2 = .ok → (flatten key v n).1.Perm (flatten key w n).1) := by
  induction n with
  | zero =>
    intro key v w _
    exact ⟨⟨fun h => absurd h (flatten_zero key v), fun h => absurd h (flatten_zero key w)⟩,
      fun h => absurd h (flatten_zero key v)⟩
  | succ n ih =>
    intro key v w hR
    cases hR with
    | same => exact ⟨Iff.rfl, fun _ => List.Perm.refl _⟩
    | ptr htu =>
      have h1 : ∀ t, flatten key (.ptr t) (n + 1) = flatten key t n := fun t => by
        simp only [flatten, conv]
      rw [h1, h1]
      exact ih key _ _ htu
    | seq hl =>
      rename_i xs ys
      by_cases hk : key = ""
      · subst hk
        exact ⟨⟨fun h => absurd h (flatten_seq_empty_key xs _),
          fun h => absurd h (flatten_seq_empty_key ys _)⟩,
          fun h => absurd h (flatten_seq_empty_key xs _)⟩
      · have hx := flatten_seq key hk xs n
        have hy := flatten_seq key hk ys n
        have hs := reordered_list_step n key ih xs ys 0 hl
        refine ⟨by rw [hx.1, hy.1]; exact hs.1, fun h => ?_⟩
        rw [hx.2 h, hy.2 (hy.1.mpr (hs.1.mp (hx.1.mp h)))]
        exact hs.2 (hx.1.mp h)
    | struct hl =>
      rename_i fs gs
      have hx := flatten_struct key fs n
      have hy := flatten_struct key gs n
      have hs := reordered_fields_step n (dotJoin key) ih fs gs hl
      refine ⟨by rw [hx.1, hy.1]; exact hs.1, fun h => ?_⟩
      rw [hx.2 h, hy.2 (hy.1.mpr (hs.1.mp (hx.1.mp h)))]
      exact hs.2 (hx.1.mp h)
    | map hl hperm =>
      rename_i es mid fs
      have hx := flatten_map key es n
      have hy := flatten_map key fs n
      have hs := reordered_entries_step n (dotJoin key) ih es mid hl
      have hmid : (∀ e ∈ mid, (flatten (dotJoin key ++ e.1) e.2 n).2 = .ok) ↔
          ∀ e ∈ fs, (flatten (dotJoin key ++ e.1) e.2 n).2 = .ok :=
        ⟨fun h e he => h e (hperm.mem_iff.mpr he), fun h e he => h e (hperm.mem_iff.mp he)⟩
      refine ⟨by rw [hx.1, hy.1]; exact hs.1.trans hmid, fun h => ?_⟩
      rw [hx.2 h, hy.2 (hy.1.mpr (hmid.mp (hs.1.mp (hx.1.mp h))))]
      exact (hs.2 (hx.1.mp h)).trans (hperm.flatMap_right _)

/-- C16, as stated, fails: the mapping `{"a.b": 1, "a": {"b": 2}}` is flattened with
success in both iteration orders of its two entries, but into different query strings,
because both leaves get the key `a.b` and `Encode` keeps the values of one key in the
order they were added. -/
theorem map_order_counterexample :
    Reordered collideAB collideBA ∧
      conv Values.add [] "" collideAB 16 = ([("a.b", ["1", "2"])], .ok) ∧
      conv Values.add [] "" collideBA 16 = ([("a.b", ["2", "1"])], .ok) ∧
      Values.Encode (conv Values.add [] "" collideAB 16).1 = "a.b=1&a.b=2" ∧
      Values.Encode (conv Values.add [] "" collideBA 16).1 = "a.b=2&a.b=1" :=
  ⟨reordered_collide, by decide, by decide, by decide, by decide⟩

/-- C16, amended. Mapping entry order is irrelevant to success and to the set of pairs,
and to the query string when keys do not collide: for two values that differ only in
the order in which string-keyed maps, at any nesting level, are iterated, flattening
into the query sink succeeds on one exactly when it succeeds on the other; on success
the emitted pairs are the same up to order, and when the emitted keys are pairwise
distinct the encoded query strings are equal. -/
theorem map_order_irrelevant (key : String) (v w : GoValue) (n : Nat)
    (h : Reordered v w) :
    ((conv Values.add [] key v n).2 = .ok ↔ (conv Values.add [] key w n).2 = .ok) ∧
      ((conv Values.add [] key v n).2 = .ok →
        (flatten key v n).1.Perm (flatten key w n).1 ∧
        (((flatten key v n).1.map Prod.fst).Nodup →
          Values.Encode (conv Values.add [] key v n).1 =
            Values.Encode (conv Values.add [] key w n).1)) := by
  obtain ⟨h1, h2⟩ := reordered_flatten n key v w h
  simp only [conv_values_eq, encode_foldl_add]
  exact ⟨h1, fun hok => ⟨h2 hok, fun hnd => specQuery_perm _ _ (h2 hok) hnd⟩⟩

/-- Witness of the amended C16: the mapping `a: 1, b: [1, 2]` and the same mapping
iterated in the other order. -/
theorem map_order_irrelevant_witness :
    ((conv Values.add [] "" mapAB 16).2 = .ok ↔
        (conv Values.add [] ""
          (.map .string [("b", .seq [.other "1", .other "2"]), ("a", .other "1")]) 16).2 = .ok) ∧
      ((conv Values.add [] "" mapAB 16).2 = .ok →
        (flatten "" mapAB 16).1.Perm
          (flatten ""
            (.map .string [("b", .seq [.other "1", .other "2"]), ("a", .other "1")]) 16).1 ∧
        (((flatten "" mapAB 16).1.map Prod.fst).Nodup →
          Values.Encode (conv Values.add [] "" mapAB 16).1 =
            Values.Encode (conv Values.add [] ""
              (.map .string [("b", .seq [.other "1", .other "2"]), ("a", .other "1")])
              16).1)) :=
  map_order_irrelevant "" mapAB
    (.map .string [("b", .seq [.other "1", .other "2"]), ("a", .other "1")]) 16
    (Reordered.map
      (ReorderedEntries.cons (Reordered.same _)
        (ReorderedEntries.cons (Reordered.same _) ReorderedEntries.nil))
      (List.Perm.swap _ _ _))

/-! ## One encoding for `Form` and `Param` (C17) -/

theorem reordered_isNil (v w : GoValue) (hR : Reordered v w) (hv : v.isNil = false) :
    w.isNil = false := by
  cases hR with
  | same => exact hv
  | seq _ => rfl
  | struct _ => rfl
  | ptr _ => rfl
  | map _ _ => rfl

/-- C17, as stated, fails in two ways. The mapping `{"a.b": 1, "a": {"b": 2}}` iterated
in one order by `Form` and in the other by `Param`, on two builders made by `DefReq`,
gives the body `a.b=1&a.b=2` and the raw query `a.b=2&a.b=1`. With a nil argument on
the builder of `Get("/search?x=1")` both calls succeed and change nothing: the body
stays empty while the raw query stays `x=1`, and no `Content-Type` is set. -/
theorem form_param_counterexample :
    Reordered collideAB collideBA ∧
      (∃ f p u, Form (DefReq demoEnv methodPost "/search" []) collideAB = .done f ∧
        f.err = none ∧
        Param (DefReq demoEnv methodGet "/search" []) collideBA = .done p ∧ p.err = none ∧
        p.url = some u ∧ f.body = "a.b=1&a.b=2" ∧ u.rawQuery = "a.b=2&a.b=1") ∧
      Form queryBuilder .nil = .done queryBuilder ∧
      Param queryBuilder .nil = .done queryBuilder ∧ queryBuilder.err = none ∧
      queryBuilder.body = "" ∧
      queryBuilder.url.map URL.rawQuery = some "x=1" ∧
      Multimap.get queryBuilder.header contentType = [] :=
  ⟨reordered_collide,
    ⟨setBody (DefReq demoEnv methodPost "/search" []) "a.b=1&a.b=2" contentTypeForm,
      { DefReq demoEnv methodGet "/search" [] with
        url := some { scheme := "", host := "", path := "/search",
                      rawQuery := "a.b=2&a.b=1", fragment := "" } },
      { scheme := "", host := "", path := "/search", rawQuery := "a.b=2&a.b=1",
        fragment := "" },
      by decide, by decide, by decide, by decide, by decide, by decide, by decide⟩,
    by decide, by decide, rfl, rfl, rfl, rfl⟩

/-- C17, amended. `Form` and `Param` share one encoding: on two fresh error-free
builders (each made by `DefReq`) and a non-nil value whose string-keyed maps `Form`
iterates in one order (`v`) and `Param` in any other (`w`), `Form` succeeds exactly
when `Param` succeeds; when both succeed, the body written by `Form` and the raw query
written by `Param` are the same encoding of the pairs each call emitted, which are the
same pairs up to order, `Content-Type` holds `application/x-www-form-urlencoded` and
`Content-Length` the byte count of the body, and the body is byte for byte the raw
query when both calls iterate in the same order or the emitted keys are pairwise
distinct. In the same order `Form` crashes exactly when `Param` crashes, and with a
nil argument both calls leave their builder unchanged. -/
theorem form_param_share_encoding (env : Env) (m1 u1 : String) (a1 : List GoValue)
    (m2 u2 : String) (a2 : List GoValue) (v w : GoValue) (hR : Reordered v w)
    (hv : v.isNil = false)
    (h1 : (DefReq env m1 u1 a1).err = none) (h2 : (DefReq env m2 u2 a2).err = none) :
    ((∃ f, Form (DefReq env m1 u1 a1) v = .done f ∧ f.err = none) ↔
        ∃ p, Param (DefReq env m2 u2 a2) w = .done p ∧ p.err = none) ∧
      (∀ f p, Form (DefReq env m1 u1 a1) v = .done f → f.err = none →
        Param (DefReq env m2 u2 a2) w = .done p → p.err = none →
        ∃ u, p.url = some u ∧
          Multimap.get f.header contentType = [contentTypeForm] ∧
          Multimap.get f.header contentLength = [toString f.body.utf8ByteSize] ∧
          (flatten "" v 16).1.Perm (flatten "" w 16).1 ∧
          f.body = specQuery (flatten "" v 16).1 ∧
          u.rawQuery = specQuery (flatten "" w 16).1 ∧
          ((w = v ∨ ((flatten "" v 16).1.map Prod.fst).Nodup) → f.body = u.rawQuery)) ∧
      (∀ m, Form (DefReq env m1 u1 a1) v = .crash m ↔
        Param (DefReq env m2 u2 a2) v = .crash m) ∧
      Form (DefReq env m1 u1 a1) .nil = .done (DefReq env m1 u1 a1) ∧
      Param (DefReq env m2 u2 a2) .nil = .done (DefReq env m2 u2 a2) := by
  obtain ⟨u, hu⟩ := defReq_url_of_ok env m2 u2 a2 h2
  have hw := reordered_isNil v w hR hv
  have hF := form_by_status (DefReq env m1 u1 a1) v h1 hv
  have hP := param_by_status (DefReq env m2 u2 a2) w h2 hw
  have hPv := param_by_status (DefReq env m2 u2 a2) v h2 hv
  rw [defReq_recursionCount] at hF hP hPv
  rw [hu] at hP hPv
  have hhead := defReq_header_of_ok env m1 u1 a1
  obtain ⟨hiff, hperm⟩ := reordered_flatten 16 "" v w hR
  have hnilF : Form (DefReq env m1 u1 a1) .nil = .done (DefReq env m1 u1 a1) := by
    simp [Form, h1]
  have hnilP : Param (DefReq env m2 u2 a2) .nil = .done (DefReq env m2 u2 a2) := by
    simp [Param, h2]
  have hcrash : ∀ m, Form (DefReq env m1 u1 a1) v = .crash m ↔
      Param (DefReq env m2 u2 a2) v = .crash m := by
    intro m
    rw [hF, hPv]
    cases (flatten "" v 16).2 <;> simp
  refine ⟨?_, ?_, hcrash, hnilF, hnilP⟩
  · constructor
    · rintro ⟨f, hf, hfe⟩
      rw [hF] at hf
      cases hst : (flatten "" v 16).2 with
      | ok =>
        rw [hiff.mp hst] at hP
        exact ⟨_, hP, h2⟩
      | error e =>
        rw [hst] at hf
        have := (Run.done.inj hf).symm
        subst this
        simp at hfe
      | crash m =>
        rw [hst] at hf
        cases hf
    · rintro ⟨p, hp, hpe⟩
      rw [hP] at hp
      cases hst : (flatten "" w 16).2 with
      | ok =>
        rw [hiff.mpr hst] at hF
        exact ⟨_, hF, by rw [setBody_err, h1]⟩
      | error e =>
        rw [hst] at hp
        have := (Run.done.inj hp).symm
        subst this
        simp at hpe
      | crash m =>
        rw [hst] at hp
        cases hp
  · intro f p hf hfe hp hpe
    rw [hF] at hf
    rw [hP] at hp
    cases hst : (flatten "" v 16).2 with
    | ok =>
      have hstw := hiff.mp hst
      rw [hst] at hf
      rw [hstw] at hp
      have hf1 := (Run.done.inj hf).symm
      have hp1 := (Run.done.inj hp).symm
      subst hf1 hp1
      refine ⟨_, rfl, ?_, ?_, hperm hst, rfl, rfl, ?_⟩
      · rw [setBody_contentType, hhead]; rfl
      · rw [setBody_contentLength, hhead]; rfl
      · rintro (heq | hnd)
        · subst heq; rfl
        · exact specQuery_perm _ _ (hperm hst) hnd
    | error e =>
      rw [hst] at hf
      have := (Run.done.inj hf).symm
      subst this
      simp at hfe
    | crash m =>
      rw [hst] at hf
      cases hf

/-- Witness of the amended C17: `Form` of the mapping `a: 1, b: [1, 2]` and `Param` of
the same mapping iterated in the other order, on two builders made by `DefReq` for
`/search`: the body and the raw query are both `a=1&b%5B0%5D=1&b%5B1%5D=2`. -/
theorem form_param_share_encoding_witness :
    ∃ f p u, Form (DefReq demoEnv methodPost "/search" []) mapAB = .done f ∧
      Param (DefReq demoEnv methodGet "/search" [])
        (.map .string [("b", .seq [.other "1", .other "2"]), ("a", .other "1")]) = .done p ∧
      p.url = some u ∧ f.body = u.rawQuery ∧ f.body = "a=1&b%5B0%5D=1&b%5B1%5D=2" ∧
      Multimap.get f.header contentType = [contentTypeForm] ∧
      Multimap.get f.header contentLength = ["25"] := by
  have hform : Form (DefReq demoEnv methodPost "/search" []) mapAB =
      .done (setBody (DefReq demoEnv methodPost "/search" []) "a=1&b%5B0%5D=1&b%5B1%5D=2"
        contentTypeForm) := by decide
  have hparam : Param (DefReq demoEnv methodGet "/search" [])
      (.map .string [("b", .seq [.other "1", .other "2"]), ("a", .other "1")]) =
      .done { DefReq demoEnv methodGet "/search" [] with
        url := some { scheme := "", host := "", path := "/search",
                      rawQuery := "a=1&b%5B0%5D=1&b%5B1%5D=2", fragment := "" } } := by
    decide
  obtain ⟨u, hu, hct, hcl, -, -, -, hbody⟩ :=
    (form_param_share_encoding demoEnv methodPost "/search" [] methodGet "/search" [] mapAB
      (.map .string [("b", .seq [.other "1", .other "2"]), ("a", .other "1")])
      (Reordered.map
        (ReorderedEntries.cons (Reordered.same _)
          (ReorderedEntries.cons (Reordered.same _) ReorderedEntries.nil))
        (List.Perm.swap _ _ _))
      rfl rfl rfl).2.1 _ _ hform rfl hparam rfl
  exact ⟨_, _, u, hform, hparam, hu, hbody (Or.inr (by decide)), rfl, hct,
    hcl.trans (by decide)⟩

end Request
